import Mathlib

/-!
A verification development for the virtual-memory core of the
Asterinas-KernMiri repository: a shallow embedding, in Lean 4, of the
`VmSpace` address-space layer (`ostd/src/mm/vm_space.rs`), the Miri
architecture's page-table-entry codec (`ostd/src/arch/miri/mm/mod.rs`),
and — where the page-table cursor internals are not part of the sources —
models of the cursor operations written from the specification and the
in-source documentation.  Machine integers (`usize`) are embedded as `Nat`
with explicit bounds where overflow matters; panics and fatal errors are
embedded as `none` / `Except.error`.
-/

/-! ## Paging constants

`PAGE_SIZE` and `MAX_USERSPACE_VADDR` are the values used throughout
`ostd/src/mm` (see `src/physical_mem.rs` line 17: `MAX_USERSPACE_VADDR =
0x0000_8000_0000_0000 - PAGE_SIZE`, that is `2 ^ 47 - PAGE_SIZE`).  `FLUSH_ALL_RANGE_THRESHOLD` lives in
`ostd/src/mm/tlb.rs`, which is not under the sources; it is modelled from
the spec as a fixed threshold of 32 base pages. -/

def PAGE_SIZE : Nat := 4096

def MAX_USERSPACE_VADDR : Nat := 0x800000000000 - PAGE_SIZE

def LINEAR_MAPPING_BASE_VADDR : Nat := 0xffff800000000000

/-- Modelled from the spec: the fixed threshold above which the TLB flusher
prefers a flush-all over per-address invalidations (`mm/tlb.rs` is not under
the sources). -/
def FLUSH_ALL_RANGE_THRESHOLD : Nat := 32 * PAGE_SIZE

/-! ## Page properties

`PageProperty` (from `ostd/src/mm/page_prop.rs`, whose flag bits are fixed
by their use in `arch/miri/mm/mod.rs`): read/write/execute flags, the
user/global privilege bits, and the cache policy.  The flags are embedded
as booleans; the architecture codec below places them at the bit positions
the source uses. -/

inductive CachePolicy where
  | Uncacheable
  | Writecombining
  | Writeprotected
  | Writethrough
  | Writeback
deriving DecidableEq, Repr

structure PageProperty where
  r : Bool
  w : Bool
  x : Bool
  user : Bool
  global : Bool
  cache : CachePolicy
deriving DecidableEq, Repr

/-! ## The Miri architecture's page-table-entry codec

A direct embedding of `impl PageTableEntryTrait for PageTableEntry` in
`src/ostd/src/arch/miri/mm/mod.rs`.  A `PageTableEntry` is a `usize`,
embedded as `Nat`.  The flag constants are the members of
`PageTableFlags`. -/

def VALID : Nat := 1 <<< 0

def READABLE : Nat := 1 <<< 1

def WRITABLE : Nat := 1 <<< 2

def EXECUTABLE : Nat := 1 <<< 3

def USER : Nat := 1 <<< 4

def GLOBAL : Nat := 1 <<< 5

def UNCACHEABLE : Nat := 1 <<< 6

def HUGE : Nat := 1 <<< 7

def WRITE_THROUGH : Nat := 1 <<< 8

def PHYS_ADDR_MASK : Nat := 0xFFFFFFFFFF000 ||| (1 <<< 7)

/-- The `flags` accumulator built at the start of `PageTableEntry::set_prop`:
`VALID` plus one PTE bit per set property flag (each `parse_flags!` line). -/
def flagsOf (prop : PageProperty) : Nat :=
  VALID
    ||| (if prop.r then READABLE else 0)
    ||| (if prop.w then WRITABLE else 0)
    ||| (if prop.x then EXECUTABLE else 0)
    ||| (if prop.user then USER else 0)
    ||| (if prop.global then GLOBAL else 0)

/-- `PageTableEntry::set_prop`.  `none` embeds the
`panic!("unsupported cache policy")` arm for `Writecombining` and
`Writeprotected`. -/
def pteSetProp (pte : Nat) (prop : PageProperty) : Option Nat :=
  let flags := flagsOf prop
  match prop.cache with
  | .Writeback => some ((pte &&& PHYS_ADDR_MASK) ||| flags)
  | .Writethrough => some ((pte &&& PHYS_ADDR_MASK) ||| (flags ||| WRITE_THROUGH))
  | .Uncacheable => some ((pte &&& PHYS_ADDR_MASK) ||| (flags ||| UNCACHEABLE))
  | _ => none

/-- `PageTableEntry::new_page`: start from `paddr | HUGE` and apply
`set_prop`. -/
def pteNewPage (paddr : Nat) (prop : PageProperty) : Option Nat :=
  pteSetProp (paddr ||| HUGE) prop

/-- `PageTableEntry::paddr`. -/
def ptePaddr (pte : Nat) : Nat := pte &&& 0xFFFFFFFFFF000

/-- `PageTableEntry::is_present`. -/
def pteIsPresent (pte : Nat) : Bool :=
  (pte &&& VALID != 0) || (pte &&& HUGE != 0)

/-- `PageTableEntry::prop`: decode the flags and the cache policy
(`UNCACHEABLE` is tested before `WRITE_THROUGH`, `Writeback` is the
default). -/
def pteProp (pte : Nat) : PageProperty where
  r := pte &&& READABLE != 0
  w := pte &&& WRITABLE != 0
  x := pte &&& EXECUTABLE != 0
  user := pte &&& USER != 0
  global := pte &&& GLOBAL != 0
  cache :=
    if pte &&& UNCACHEABLE != 0 then .Uncacheable
    else if pte &&& WRITE_THROUGH != 0 then .Writethrough
    else .Writeback

/-- Modelled from the spec: the page-table cursor's `map` stores in the
slot the architecture entry built by `PageTableEntry::new_page`, and
`query` decodes a present entry via `paddr()`/`prop()` (the cursor
implementation, `mm/page_table/cursor.rs`, is not under the sources). -/
def slotQuery (pte : Nat) : Option (Nat × PageProperty) :=
  if pteIsPresent pte then some (ptePaddr pte, pteProp pte) else none

/-- Map a frame at `paddr` with `prop` into a slot and immediately query
that slot.  `none` means the map operation aborted. -/
def mapThenQuery (paddr : Nat) (prop : PageProperty) : Option (Nat × PageProperty) :=
  (pteNewPage paddr prop).bind slotQuery

/-! ### Bit-level facts about the codec -/

theorem testBit_mask52 (i : Nat) :
    Nat.testBit 0xFFFFFFFFFF000 i = decide (12 ≤ i ∧ i < 52) := by
  have h : (0xFFFFFFFFFF000 : Nat) = 2 ^ 12 * (2 ^ 40 - 1) + 0 := by norm_num
  rw [h, Nat.testBit_mul_pow_two_add _ (by norm_num : (0 : Nat) < 2 ^ 12)]
  rcases Nat.lt_or_ge i 12 with h12 | h12
  · simp only [if_pos h12, Nat.zero_testBit]
    have : ¬ (12 ≤ i ∧ i < 52) := by omega
    simp [this]
  · simp only [if_neg (Nat.not_lt.mpr h12), Nat.testBit_two_pow_sub_one]
    have : i - 12 < 40 ↔ 12 ≤ i ∧ i < 52 := by omega
    simp [this]

theorem testBit_physAddrMask (i : Nat) :
    Nat.testBit PHYS_ADDR_MASK i = decide ((12 ≤ i ∧ i < 52) ∨ i = 7) := by
  have h128 : (1 <<< 7 : Nat) = 2 ^ 7 := by decide
  show Nat.testBit (0xFFFFFFFFFF000 ||| (1 <<< 7)) i = _
  rw [Nat.testBit_or, testBit_mask52, h128, Nat.testBit_two_pow]
  by_cases h : i = 7
  · subst h
    simp
  · simp [h, Ne.symm h]

theorem add_or_low {b c : Nat} (q : Nat) (hb : b < 2 ^ 12) (hc : c < 2 ^ 12) :
    (2 ^ 12 * q + b) ||| c = 2 ^ 12 * q + (b ||| c) := by
  apply Nat.eq_of_testBit_eq
  intro i
  rw [Nat.testBit_or, Nat.testBit_mul_pow_two_add _ hb,
    Nat.testBit_mul_pow_two_add _ (Nat.or_lt_two_pow hb hc)]
  rcases Nat.lt_or_ge i 12 with h | h
  · simp [h]
  · have hci : Nat.testBit c i = false :=
      Nat.testBit_lt_two_pow (lt_of_lt_of_le hc (Nat.pow_le_pow_right (by norm_num) h))
    simp [Nat.not_lt.mpr h, hci]

theorem add_land_mask52 {c : Nat} (q : Nat) (hq : q < 2 ^ 40) (hc : c < 2 ^ 12) :
    (2 ^ 12 * q + c) &&& 0xFFFFFFFFFF000 = 2 ^ 12 * q := by
  apply Nat.eq_of_testBit_eq
  intro i
  rw [Nat.testBit_and, Nat.testBit_mul_pow_two_add _ hc, testBit_mask52]
  have h0 : 2 ^ 12 * q = 2 ^ 12 * q + 0 := rfl
  rw [h0, Nat.testBit_mul_pow_two_add _ (by norm_num : (0 : Nat) < 2 ^ 12)]
  rcases Nat.lt_or_ge i 12 with h | h
  · have : ¬ (12 ≤ i ∧ i < 52) := by omega
    simp [h, this]
  · rcases Nat.lt_or_ge i 52 with h52 | h52
    · have : 12 ≤ i ∧ i < 52 := by omega
      simp [Nat.not_lt.mpr h, this]
    · have hqi : Nat.testBit q (i - 12) = false := by
        apply Nat.testBit_lt_two_pow
        calc q < 2 ^ 40 := hq
          _ ≤ 2 ^ (i - 12) := Nat.pow_le_pow_right (by norm_num) (by omega)
      have : ¬ (12 ≤ i ∧ i < 52) := by omega
      simp [Nat.not_lt.mpr h, this, hqi]

theorem add128_land_pam (q : Nat) (hq : q < 2 ^ 40) :
    (2 ^ 12 * q + 128) &&& PHYS_ADDR_MASK = 2 ^ 12 * q + 128 := by
  apply Nat.eq_of_testBit_eq
  intro i
  rw [Nat.testBit_and, testBit_physAddrMask,
    Nat.testBit_mul_pow_two_add _ (by norm_num : (128 : Nat) < 2 ^ 12)]
  have h128 : (128 : Nat) = 2 ^ 7 := by norm_num
  rcases Nat.lt_or_ge i 12 with h | h
  · rw [if_pos h, h128, Nat.testBit_two_pow]
    by_cases h7 : (7 : Nat) = i
    · have : (12 ≤ i ∧ i < 52) ∨ i = 7 := Or.inr h7.symm
      simp [h7, this]
    · simp [h7]
  · rcases Nat.lt_or_ge i 52 with h52 | h52
    · have : (12 ≤ i ∧ i < 52) ∨ i = 7 := Or.inl (by omega)
      simp [Nat.not_lt.mpr h, this]
    · have hqi : Nat.testBit q (i - 12) = false := by
        apply Nat.testBit_lt_two_pow
        calc q < 2 ^ 40 := hq
          _ ≤ 2 ^ (i - 12) := Nat.pow_le_pow_right (by norm_num) (by omega)
      have : ¬ ((12 ≤ i ∧ i < 52) ∨ i = 7) := by omega
      simp [Nat.not_lt.mpr h, this, hqi]

theorem land_two_pow_ne_zero (n k : Nat) :
    ((n &&& 2 ^ k) != 0) = n.testBit k := by
  cases h : n.testBit k <;>
    simp [Nat.and_two_pow, h, (Nat.two_pow_pos k).ne']

theorem slot_testBit_low (q c k : Nat) (hc : c < 2 ^ 12) (hk : k < 12) :
    (2 ^ 12 * q + c).testBit k = c.testBit k := by
  rw [Nat.testBit_mul_pow_two_add _ hc]
  simp [hk]

theorem flagsOf_lt (p : PageProperty) : flagsOf p < 2 ^ 12 := by
  rcases p with ⟨r, w, x, u, g, c⟩
  cases r <;> cases w <;> cases x <;> cases u <;> cases g <;> cases c <;> decide

theorem flagsOf_testBit_0 (p : PageProperty) : (flagsOf p).testBit 0 = true := by
  rcases p with ⟨r, w, x, u, g, c⟩
  cases r <;> cases w <;> cases x <;> cases u <;> cases g <;> cases c <;> decide

theorem flagsOf_testBit_1 (p : PageProperty) : (flagsOf p).testBit 1 = p.r := by
  rcases p with ⟨r, w, x, u, g, c⟩
  cases r <;> cases w <;> cases x <;> cases u <;> cases g <;> cases c <;> decide

theorem flagsOf_testBit_2 (p : PageProperty) : (flagsOf p).testBit 2 = p.w := by
  rcases p with ⟨r, w, x, u, g, c⟩
  cases r <;> cases w <;> cases x <;> cases u <;> cases g <;> cases c <;> decide

theorem flagsOf_testBit_3 (p : PageProperty) : (flagsOf p).testBit 3 = p.x := by
  rcases p with ⟨r, w, x, u, g, c⟩
  cases r <;> cases w <;> cases x <;> cases u <;> cases g <;> cases c <;> decide

theorem flagsOf_testBit_4 (p : PageProperty) : (flagsOf p).testBit 4 = p.user := by
  rcases p with ⟨r, w, x, u, g, c⟩
  cases r <;> cases w <;> cases x <;> cases u <;> cases g <;> cases c <;> decide

theorem flagsOf_testBit_5 (p : PageProperty) : (flagsOf p).testBit 5 = p.global := by
  rcases p with ⟨r, w, x, u, g, c⟩
  cases r <;> cases w <;> cases x <;> cases u <;> cases g <;> cases c <;> decide

theorem flagsOf_testBit_6 (p : PageProperty) : (flagsOf p).testBit 6 = false := by
  rcases p with ⟨r, w, x, u, g, c⟩
  cases r <;> cases w <;> cases x <;> cases u <;> cases g <;> cases c <;> decide

theorem flagsOf_testBit_8 (p : PageProperty) : (flagsOf p).testBit 8 = false := by
  rcases p with ⟨r, w, x, u, g, c⟩
  cases r <;> cases w <;> cases x <;> cases u <;> cases g <;> cases c <;> decide

theorem VALID_eq : VALID = 2 ^ 0 := by decide

theorem READABLE_eq : READABLE = 2 ^ 1 := by decide

theorem WRITABLE_eq : WRITABLE = 2 ^ 2 := by decide

theorem EXECUTABLE_eq : EXECUTABLE = 2 ^ 3 := by decide

theorem USER_eq : USER = 2 ^ 4 := by decide

theorem GLOBAL_eq : GLOBAL = 2 ^ 5 := by decide

theorem UNCACHEABLE_eq : UNCACHEABLE = 2 ^ 6 := by decide

theorem HUGE_eq : HUGE = 2 ^ 7 := by decide

theorem WRITE_THROUGH_eq : WRITE_THROUGH = 2 ^ 8 := by decide

/-- Decoding a stored entry `2 ^ 12 * q + c` (page-aligned physical part plus
flag bits below bit 12): `query` reports the physical address `2 ^ 12 * q` and
the properties read off the low bits. -/
theorem slotQuery_decode (q c : Nat) (hq : q < 2 ^ 40) (hc : c < 2 ^ 12)
    (h0 : c.testBit 0 = true) :
    slotQuery (2 ^ 12 * q + c) =
      some (2 ^ 12 * q,
        { r := c.testBit 1, w := c.testBit 2, x := c.testBit 3,
          user := c.testBit 4, global := c.testBit 5,
          cache := if c.testBit 6 then CachePolicy.Uncacheable
            else if c.testBit 8 then CachePolicy.Writethrough
            else CachePolicy.Writeback }) := by
  unfold slotQuery pteIsPresent pteProp ptePaddr
  rw [VALID_eq, READABLE_eq, WRITABLE_eq, EXECUTABLE_eq, USER_eq, GLOBAL_eq,
    UNCACHEABLE_eq, HUGE_eq, WRITE_THROUGH_eq]
  simp only [land_two_pow_ne_zero]
  rw [slot_testBit_low q c 0 hc (by norm_num), slot_testBit_low q c 1 hc (by norm_num),
    slot_testBit_low q c 2 hc (by norm_num), slot_testBit_low q c 3 hc (by norm_num),
    slot_testBit_low q c 4 hc (by norm_num), slot_testBit_low q c 5 hc (by norm_num),
    slot_testBit_low q c 6 hc (by norm_num), slot_testBit_low q c 7 hc (by norm_num),
    slot_testBit_low q c 8 hc (by norm_num), add_land_mask52 q hq hc]
  simp [h0]

theorem or128_testBit (f k : Nat) (hk : k ≠ 7) : (128 ||| f).testBit k = f.testBit k := by
  rw [Nat.testBit_or, (by decide : (128 : Nat) = 2 ^ 7), Nat.testBit_two_pow]
  simp [Ne.symm hk]

/-- C4 (amended): for every page-aligned physical address (below the 52-bit
physical-address field) and every page property whose cache policy the Miri
page-table-entry codec supports — write-back, write-through or uncacheable —
`map` followed immediately by `query` returns `Mapped` with the same physical
address and exactly the same properties.  (The codec aborts on write-combining
and write-protected; see the counterexample.) -/
theorem claim_C4_roundtrip (q : Nat) (hq : q < 2 ^ 40) (p : PageProperty)
    (hcache : p.cache = CachePolicy.Writeback ∨ p.cache = CachePolicy.Writethrough ∨
      p.cache = CachePolicy.Uncacheable) :
    mapThenQuery (2 ^ 12 * q) p = some (2 ^ 12 * q, p) := by
  have hf : flagsOf p < 2 ^ 12 := flagsOf_lt p
  have e1 : (2 ^ 12 * q) ||| HUGE = 2 ^ 12 * q + 128 := by
    have h := add_or_low (b := 0) (c := 128) q (by norm_num) (by norm_num)
    rw [(by decide : HUGE = 128)]
    simpa using h
  rcases hcache with hc | hc | hc
  · -- Writeback: flag part is `128 ||| flagsOf p`
    have hcor : (128 ||| flagsOf p) < 2 ^ 12 := Nat.or_lt_two_pow (by norm_num) hf
    have h0 : (128 ||| flagsOf p).testBit 0 = true := by
      rw [Nat.testBit_or, flagsOf_testBit_0]
      simp
    simp only [mapThenQuery, pteNewPage, pteSetProp, hc, Option.some_bind]
    rw [e1, add128_land_pam q hq, add_or_low q (by norm_num) hf,
      slotQuery_decode q _ hq hcor h0,
      or128_testBit _ 1 (by decide), or128_testBit _ 2 (by decide),
      or128_testBit _ 3 (by decide), or128_testBit _ 4 (by decide),
      or128_testBit _ 5 (by decide), or128_testBit _ 6 (by decide),
      or128_testBit _ 8 (by decide),
      flagsOf_testBit_1, flagsOf_testBit_2, flagsOf_testBit_3, flagsOf_testBit_4,
      flagsOf_testBit_5, flagsOf_testBit_6, flagsOf_testBit_8]
    simp [← hc]
  · -- Writethrough: flag part is `128 ||| (flagsOf p ||| WRITE_THROUGH)`
    have hfor : (flagsOf p ||| WRITE_THROUGH) < 2 ^ 12 := by
      rw [WRITE_THROUGH_eq]
      exact Nat.or_lt_two_pow hf (by norm_num)
    have hcor : (128 ||| (flagsOf p ||| WRITE_THROUGH)) < 2 ^ 12 :=
      Nat.or_lt_two_pow (by norm_num) hfor
    have hwt : ∀ k, (flagsOf p ||| WRITE_THROUGH).testBit k =
        ((flagsOf p).testBit k || Nat.testBit (2 ^ 8) k) := by
      intro k
      rw [Nat.testBit_or, WRITE_THROUGH_eq]
    have h0 : (128 ||| (flagsOf p ||| WRITE_THROUGH)).testBit 0 = true := by
      rw [Nat.testBit_or, hwt 0, flagsOf_testBit_0]
      simp
    simp only [mapThenQuery, pteNewPage, pteSetProp, hc, Option.some_bind]
    rw [e1, add128_land_pam q hq, add_or_low q (by norm_num) hfor,
      slotQuery_decode q _ hq hcor h0,
      or128_testBit _ 1 (by decide), or128_testBit _ 2 (by decide),
      or128_testBit _ 3 (by decide), or128_testBit _ 4 (by decide),
      or128_testBit _ 5 (by decide), or128_testBit _ 6 (by decide),
      or128_testBit _ 8 (by decide),
      hwt 1, hwt 2, hwt 3, hwt 4, hwt 5, hwt 6, hwt 8,
      flagsOf_testBit_1, flagsOf_testBit_2, flagsOf_testBit_3, flagsOf_testBit_4,
      flagsOf_testBit_5, flagsOf_testBit_6, flagsOf_testBit_8]
    simp [← hc, (by decide : Nat.testBit 256 1 = false), (by decide : Nat.testBit 256 2 = false),
      (by decide : Nat.testBit 256 3 = false), (by decide : Nat.testBit 256 4 = false),
      (by decide : Nat.testBit 256 5 = false), (by decide : Nat.testBit 256 6 = false),
      (by decide : Nat.testBit 256 8 = true)]
  · -- Uncacheable: flag part is `128 ||| (flagsOf p ||| UNCACHEABLE)`
    have hfor : (flagsOf p ||| UNCACHEABLE) < 2 ^ 12 := by
      rw [UNCACHEABLE_eq]
      exact Nat.or_lt_two_pow hf (by norm_num)
    have hcor : (128 ||| (flagsOf p ||| UNCACHEABLE)) < 2 ^ 12 :=
      Nat.or_lt_two_pow (by norm_num) hfor
    have huc : ∀ k, (flagsOf p ||| UNCACHEABLE).testBit k =
        ((flagsOf p).testBit k || Nat.testBit (2 ^ 6) k) := by
      intro k
      rw [Nat.testBit_or, UNCACHEABLE_eq]
    have h0 : (128 ||| (flagsOf p ||| UNCACHEABLE)).testBit 0 = true := by
      rw [Nat.testBit_or, huc 0, flagsOf_testBit_0]
      simp
    simp only [mapThenQuery, pteNewPage, pteSetProp, hc, Option.some_bind]
    rw [e1, add128_land_pam q hq, add_or_low q (by norm_num) hfor,
      slotQuery_decode q _ hq hcor h0,
      or128_testBit _ 1 (by decide), or128_testBit _ 2 (by decide),
      or128_testBit _ 3 (by decide), or128_testBit _ 4 (by decide),
      or128_testBit _ 5 (by decide), or128_testBit _ 6 (by decide),
      or128_testBit _ 8 (by decide),
      huc 1, huc 2, huc 3, huc 4, huc 5, huc 6, huc 8,
      flagsOf_testBit_1, flagsOf_testBit_2, flagsOf_testBit_3, flagsOf_testBit_4,
      flagsOf_testBit_5, flagsOf_testBit_6, flagsOf_testBit_8]
    simp [← hc, (by decide : Nat.testBit 64 1 = false), (by decide : Nat.testBit 64 2 = false),
      (by decide : Nat.testBit 64 3 = false), (by decide : Nat.testBit 64 4 = false),
      (by decide : Nat.testBit 64 5 = false), (by decide : Nat.testBit 64 6 = true),
      (by decide : Nat.testBit 64 8 = false)]

/-- C4 counterexample: the claim quantifies over the full enumerated cache-policy
set, but mapping with the write-combining policy aborts
(`panic!("unsupported cache policy")` in `PageTableEntry::set_prop`), so
map-then-query does not return `Mapped` for that legal property. -/
theorem claim_C4_counterexample :
    mapThenQuery 0x1000
      { r := true, w := true, x := false, user := true, global := false,
        cache := CachePolicy.Writecombining } = none := rfl

/-- Witness for C4 at a concrete aligned address and property. -/
theorem claim_C4_witness :
    mapThenQuery (2 ^ 12 * 3)
      { r := true, w := true, x := false, user := true, global := false,
        cache := CachePolicy.Writeback } =
      some (2 ^ 12 * 3,
        { r := true, w := true, x := false, user := true, global := false,
          cache := CachePolicy.Writeback }) :=
  claim_C4_roundtrip 3 (by norm_num) _ (Or.inl rfl)

/-! ## The ostd error type (the variants these claims mention) -/

inductive OstdError where
  | InvalidArgs
  | AccessDenied
deriving DecidableEq, Repr

/-! ## `VmSpace::reader` / `VmSpace::writer` (vm_space.rs)

Both validate that the current CPU's active page-table root
(`current_page_table_paddr()`) equals this space's root and that
`vaddr.checked_add(len).unwrap_or(usize::MAX)` does not exceed
`MAX_USERSPACE_VADDR`, then hand out a fallible reader/writer over exactly
`[vaddr, vaddr + len)`.  Neither touches any mapping state. -/

def usizeMax : Nat := 2 ^ 64 - 1

/-- `usize::checked_add`. -/
def checkedAdd (a b : Nat) : Option Nat :=
  if a + b ≤ usizeMax then some (a + b) else none

/-- `VmSpace::reader`. -/
def vmSpaceReader (currentRoot selfRoot vaddr len : Nat) :
    Except OstdError (Nat × Nat) :=
  if currentRoot ≠ selfRoot then .error .AccessDenied
  else if ((checkedAdd vaddr len).getD usizeMax) > MAX_USERSPACE_VADDR then
    .error .AccessDenied
  else .ok (vaddr, len)

/-- `VmSpace::writer`: the same checks as `reader`. -/
def vmSpaceWriter (currentRoot selfRoot vaddr len : Nat) :
    Except OstdError (Nat × Nat) :=
  if currentRoot ≠ selfRoot then .error .AccessDenied
  else if ((checkedAdd vaddr len).getD usizeMax) > MAX_USERSPACE_VADDR then
    .error .AccessDenied
  else .ok (vaddr, len)

theorem readerSpec (currentRoot selfRoot vaddr len : Nat) :
    vmSpaceReader currentRoot selfRoot vaddr len =
      if currentRoot ≠ selfRoot ∨ vaddr + len > MAX_USERSPACE_VADDR then
        Except.error OstdError.AccessDenied
      else Except.ok (vaddr, len) := by
  have h1 : MAX_USERSPACE_VADDR < usizeMax := by
    rw [MAX_USERSPACE_VADDR, PAGE_SIZE, usizeMax]
    norm_num
  have key : (((checkedAdd vaddr len).getD usizeMax) > MAX_USERSPACE_VADDR) ↔
      vaddr + len > MAX_USERSPACE_VADDR := by
    unfold checkedAdd
    by_cases h : vaddr + len ≤ usizeMax
    · rw [if_pos h, Option.getD_some]
    · rw [if_neg h, Option.getD_none]
      omega
  unfold vmSpaceReader
  by_cases hr : currentRoot = selfRoot
  · by_cases hl : vaddr + len > MAX_USERSPACE_VADDR
    · rw [if_neg (by simp [hr]), if_pos (key.mpr hl), if_pos (Or.inr hl)]
    · rw [if_neg (by simp [hr]), if_neg (by rw [key]; omega),
        if_neg (by simp [hr]; omega)]
  · rw [if_pos hr, if_pos (Or.inl hr)]

theorem writerSpec (currentRoot selfRoot vaddr len : Nat) :
    vmSpaceWriter currentRoot selfRoot vaddr len =
      if currentRoot ≠ selfRoot ∨ vaddr + len > MAX_USERSPACE_VADDR then
        Except.error OstdError.AccessDenied
      else Except.ok (vaddr, len) := by
  have h1 : MAX_USERSPACE_VADDR < usizeMax := by
    rw [MAX_USERSPACE_VADDR, PAGE_SIZE, usizeMax]
    norm_num
  have key : (((checkedAdd vaddr len).getD usizeMax) > MAX_USERSPACE_VADDR) ↔
      vaddr + len > MAX_USERSPACE_VADDR := by
    unfold checkedAdd
    by_cases h : vaddr + len ≤ usizeMax
    · rw [if_pos h, Option.getD_some]
    · rw [if_neg h, Option.getD_none]
      omega
  unfold vmSpaceWriter
  by_cases hr : currentRoot = selfRoot
  · by_cases hl : vaddr + len > MAX_USERSPACE_VADDR
    · rw [if_neg (by simp [hr]), if_pos (key.mpr hl), if_pos (Or.inr hl)]
    · rw [if_neg (by simp [hr]), if_neg (by rw [key]; omega),
        if_neg (by simp [hr]; omega)]
  · rw [if_pos hr, if_pos (Or.inl hr)]

/-- C6: `VmSpace::reader` and `VmSpace::writer` return `Err(AccessDenied)` if
and only if the current CPU's active page-table root differs from this space's
root or the byte range `[vaddr, vaddr + len)` exceeds `MAX_USERSPACE_VADDR`
(including the `checked_add` overflow case); otherwise they return a fallible
reader/writer over exactly the requested range, touching no mapping state. -/
theorem claim_C6_reader_writer (currentRoot selfRoot vaddr len : Nat) :
    (vmSpaceReader currentRoot selfRoot vaddr len = .error .AccessDenied ↔
      (currentRoot ≠ selfRoot ∨ vaddr + len > MAX_USERSPACE_VADDR)) ∧
    (vmSpaceWriter currentRoot selfRoot vaddr len = .error .AccessDenied ↔
      (currentRoot ≠ selfRoot ∨ vaddr + len > MAX_USERSPACE_VADDR)) ∧
    (¬ (currentRoot ≠ selfRoot ∨ vaddr + len > MAX_USERSPACE_VADDR) →
      vmSpaceReader currentRoot selfRoot vaddr len = .ok (vaddr, len) ∧
      vmSpaceWriter currentRoot selfRoot vaddr len = .ok (vaddr, len)) := by
  rw [readerSpec, writerSpec]
  by_cases hcond : currentRoot ≠ selfRoot ∨ vaddr + len > MAX_USERSPACE_VADDR <;>
    simp [hcond]

/-! ## `VmSpace::clear` (vm_space.rs) -/

inductive VmSpaceClearError where
  | PageTableActivated (cpus : Finset Nat)
  | CursorsAlive

structure VmSpaceClearState where
  /-- read-only cursors alive: `VmSpace::cursor` (vm_space.rs lines 106-108)
  takes no activation lock, so `clear` never observes these. -/
  roCursorsAlive : Bool
  /-- mutable cursors alive: each holds `activation_lock.read()`
  (vm_space.rs line 122), which makes `try_write()` fail. -/
  mutCursorsAlive : Bool
  /-- `self.cpus.load()`. -/
  cpus : Finset Nat
  /-- The user-space mappings, abstract: `pt.clear()` empties them. -/
  mappings : List (Nat × Nat)

structure ClearOutcome where
  result : Except VmSpaceClearError Unit
  mappings : List (Nat × Nat)
  /-- whether `tlb_flush_all_excluding_global()` was called. -/
  localFlushAll : Bool

/-- `VmSpace::clear`: fail with `CursorsAlive` if the activation write lock
cannot be taken — `try_write()` fails exactly when a *mutable* cursor holds
the read lock, read-only cursors never take it; with the lock held, clear and
locally flush when the CPU set is empty or is exactly the current CPU,
otherwise fail with `PageTableActivated(cpus)`. -/
def vmSpaceClear (s : VmSpaceClearState) (currentCpu : Nat) : ClearOutcome :=
  if s.mutCursorsAlive then
    { result := .error .CursorsAlive, mappings := s.mappings, localFlushAll := false }
  else if s.cpus = ∅ ∨ (s.cpus.card = 1 ∧ currentCpu ∈ s.cpus) then
    { result := .ok (), mappings := [],
      localFlushAll := decide (s.cpus.card = 1 ∧ currentCpu ∈ s.cpus) }
  else
    { result := .error (.PageTableActivated s.cpus), mappings := s.mappings,
      localFlushAll := false }

theorem singleSelf_iff (cpus : Finset Nat) (cpu : Nat) :
    (cpus.card = 1 ∧ cpu ∈ cpus) ↔ cpus = {cpu} := by
  constructor
  · rintro ⟨hcard, hmem⟩
    rcases Finset.card_eq_one.mp hcard with ⟨a, ha⟩
    rw [ha] at hmem ⊢
    rw [Finset.mem_singleton] at hmem
    rw [hmem]
  · intro h
    rw [h]
    simp

theorem clearCond_iff (cpus : Finset Nat) (cpu : Nat) :
    (cpus = ∅ ∨ (cpus.card = 1 ∧ cpu ∈ cpus)) ↔ (∀ c ∈ cpus, c = cpu) := by
  rw [singleSelf_iff]
  constructor
  · rintro (h | h) c hc
    · rw [h] at hc
      exact absurd hc (Finset.not_mem_empty c)
    · rw [h] at hc
      exact Finset.mem_singleton.mp hc
  · intro h
    by_cases he : cpus = ∅
    · exact Or.inl he
    · refine Or.inr (Finset.eq_singleton_iff_unique_mem.mpr ?_)
      rcases Finset.nonempty_iff_ne_empty.mpr he with ⟨a, ha⟩
      have hac := h a ha
      exact ⟨hac ▸ ha, h⟩

/-- C2 (amended): `clear` fails with `CursorsAlive` exactly when a *mutable*
cursor is alive — read-only cursors take no activation lock and are not
observed, so `clear` can succeed while one is alive (see the counterexample);
with no mutable cursor alive it fails with `PageTableActivated(cpus)` exactly
when the space is active on a CPU other than the caller's; on either error the
mappings are untouched; otherwise all mappings are removed and a local
non-global flush-all is performed exactly when the space was active on the
caller's own CPU; the outcome never depends on the read-only cursors. -/
theorem claim_C2_clear (s : VmSpaceClearState) (currentCpu : Nat) :
    ((vmSpaceClear s currentCpu).result = .error .CursorsAlive ↔
      s.mutCursorsAlive = true) ∧
    (s.mutCursorsAlive = false →
      ((vmSpaceClear s currentCpu).result = .error (.PageTableActivated s.cpus) ↔
        ∃ c ∈ s.cpus, c ≠ currentCpu)) ∧
    (∀ e, (vmSpaceClear s currentCpu).result = .error e →
      (vmSpaceClear s currentCpu).mappings = s.mappings) ∧
    (s.mutCursorsAlive = false → (∀ c ∈ s.cpus, c = currentCpu) →
      (vmSpaceClear s currentCpu).result = .ok () ∧
      (vmSpaceClear s currentCpu).mappings = [] ∧
      ((vmSpaceClear s currentCpu).localFlushAll = true ↔ s.cpus = {currentCpu})) ∧
    (∀ b, vmSpaceClear s currentCpu =
      vmSpaceClear { s with roCursorsAlive := b } currentCpu) := by
  cases hcur : s.mutCursorsAlive
  · by_cases hb : s.cpus = ∅ ∨ (s.cpus.card = 1 ∧ currentCpu ∈ s.cpus)
    · have hall : ∀ c ∈ s.cpus, c = currentCpu := (clearCond_iff s.cpus currentCpu).mp hb
      have hnex : ¬ ∃ c ∈ s.cpus, c ≠ currentCpu := by
        rintro ⟨c, hc, hne⟩
        exact hne (hall c hc)
      have hb2 : s.cpus = ∅ ∨ s.cpus = {currentCpu} := by
        rcases hb with h | h
        · exact Or.inl h
        · exact Or.inr ((singleSelf_iff s.cpus currentCpu).mp h)
      simp [vmSpaceClear, hcur, hb, hb2, hnex, Bool.and_eq_true, decide_eq_true_iff,
        singleSelf_iff]
    · have hex : ∃ c ∈ s.cpus, c ≠ currentCpu := by
        rw [clearCond_iff] at hb
        push_neg at hb
        exact hb
      have hnall : ¬ ∀ c ∈ s.cpus, c = currentCpu := by
        rw [← clearCond_iff]
        exact hb
      simp [vmSpaceClear, hcur, hb, hex, hnall]
  · simp [vmSpaceClear, hcur]

/-- C2 counterexample: a read-only cursor is alive (`VmSpace::cursor`,
vm_space.rs lines 106-108, takes no activation lock), no mutable cursor exists
and the space is activated nowhere; `clear` then succeeds and removes the
mappings instead of failing with `CursorsAlive`, refuting the claim that it
fails with `CursorsAlive` whenever any cursor over the space is alive. -/
theorem claim_C2_counterexample :
    (vmSpaceClear
      { roCursorsAlive := true, mutCursorsAlive := false, cpus := ∅,
        mappings := [(0x1000, 7)] } 0).result = .ok () ∧
    (vmSpaceClear
      { roCursorsAlive := true, mutCursorsAlive := false, cpus := ∅,
        mappings := [(0x1000, 7)] } 0).mappings = [] := by
  constructor <;> simp [vmSpaceClear]

/-! ## `VmSpace::activate` (vm_space.rs) -/

structure ActivationState where
  /-- `ACTIVATED_VM_SPACE` on the current CPU (`none` = null). -/
  activatedVmSpace : Option Nat
  /-- each VM space's CPU set (spaces identified by their `Arc` pointer). -/
  cpusOf : Nat → Finset Nat
  /-- the active page-table root. -/
  currentRoot : Nat

structure ActivateOutcome where
  state : ActivationState
  tookActivationWriteLock : Bool

/-- `VmSpace::activate` on the current CPU.  The early return when
`ACTIVATED_VM_SPACE.load()` already equals `Arc::as_ptr(self)` happens before
the activation write lock is taken; otherwise, under the write lock, the CPU is
added to `self`'s CPU set, the activated-space pointer is swapped, the CPU is
removed from the previously activated space's set, and `self.pt.activate()`
switches the root (`rootOf self`). -/
def vmSpaceActivate (s : ActivationState) (self cpu : Nat) (rootOf : Nat → Nat) :
    ActivateOutcome :=
  if s.activatedVmSpace = some self then
    { state := s, tookActivationWriteLock := false }
  else
    { state :=
        { activatedVmSpace := some self
          cpusOf := fun v =>
            let afterAdd :=
              if v = self then insert cpu (s.cpusOf v) else s.cpusOf v
            match s.activatedVmSpace with
            | some last => if v = last then afterAdd.erase cpu else afterAdd
            | none => afterAdd
          currentRoot := rootOf self }
      tookActivationWriteLock := true }

/-- C10: activating a space that is already the one recorded as activated on
the current CPU returns immediately: the activation write lock is not taken,
and the per-CPU activated-space pointer, every space's CPU set and the active
page-table root are all left unchanged. -/
theorem claim_C10_activate_idempotent (s : ActivationState) (self cpu : Nat)
    (rootOf : Nat → Nat) (h : s.activatedVmSpace = some self) :
    vmSpaceActivate s self cpu rootOf = { state := s, tookActivationWriteLock := false } := by
  unfold vmSpaceActivate
  rw [if_pos h]

/-- Witness for C10 at a concrete state. -/
theorem claim_C10_witness :
    vmSpaceActivate
      { activatedVmSpace := some 3, cpusOf := fun _ => {0}, currentRoot := 7 } 3 0
      (fun _ => 7) =
      { state := { activatedVmSpace := some 3, cpusOf := fun _ => {0}, currentRoot := 7 },
        tookActivationWriteLock := false } :=
  claim_C10_activate_idempotent _ 3 0 _ rfl

/-! ## Cursor-creation range checks (C8) -/

/-- Modelled from the spec: page-table cursor creation in `UserMode` rejects a
requested range that is misaligned, empty, or beyond the user-space ceiling
with `InvalidArgs` (`RangeViolation` in the spec's terms).  The cursor-creation
code (`mm/page_table/cursor.rs`) is not under the sources; its tests
(`range_check`, `boundary_conditions` in `mm/page_table/test.rs`) assert these
rejections. -/
def userCursorCheck (start endv : Nat) : Except OstdError Unit :=
  if start % PAGE_SIZE ≠ 0 ∨ endv % PAGE_SIZE ≠ 0 then .error .InvalidArgs
  else if endv ≤ start then .error .InvalidArgs
  else if endv > MAX_USERSPACE_VADDR then .error .InvalidArgs
  else .ok ()

/-- C8: cursor creation over `[0, PAGE_SIZE + 1)` (misaligned length), over the
kernel-reserved linear-mapping range, over the empty range `[0, 0)`, over
`[MAX_USERSPACE_VADDR, MAX_USERSPACE_VADDR + PAGE_SIZE)` (beyond the user
ceiling) and over the fully unaligned `[1, PAGE_SIZE + 1)` is rejected with
`InvalidArgs` at creation time, while valid page-aligned user ranges are
accepted. -/
theorem claim_C8_range_rejection :
    userCursorCheck 0 (PAGE_SIZE + 1) = .error .InvalidArgs ∧
    userCursorCheck LINEAR_MAPPING_BASE_VADDR (LINEAR_MAPPING_BASE_VADDR + PAGE_SIZE) =
      .error .InvalidArgs ∧
    userCursorCheck 0 0 = .error .InvalidArgs ∧
    userCursorCheck MAX_USERSPACE_VADDR (MAX_USERSPACE_VADDR + PAGE_SIZE) =
      .error .InvalidArgs ∧
    userCursorCheck 1 (PAGE_SIZE + 1) = .error .InvalidArgs ∧
    userCursorCheck 0 PAGE_SIZE = .ok () ∧
    userCursorCheck 0 MAX_USERSPACE_VADDR = .ok () :=
  ⟨rfl, rfl, rfl, rfl, rfl, rfl, rfl⟩

/-! ## Overlapping cursor creation at the `VmSpace` layer (C5) -/

/-- The outcome of cursor creation at the `VmSpace` layer: either the cursor is
acquired (the per-subtree locks are taken) or creation is, for now, blocked
waiting for an overlapping cursor to be dropped.  There is no error outcome:
an overlap is never reported as an error. -/
inductive CursorCreation where
  | acquired (alive : List (Nat × Nat))
  | blocked
deriving DecidableEq, Repr

/-- `[a.1, a.2)` and `[b.1, b.2)` intersect. -/
def rangesOverlap (a b : Nat × Nat) : Bool :=
  a.1 < b.2 && b.1 < a.2

/-- Modelled from the spec: `VmSpace::cursor`/`cursor_mut` take per-subtree
locks, so while an overlapping cursor is alive creation blocks — it does not
fail — and once the conflicting cursor is dropped it succeeds.  The page-table
locking code is not under the sources; the vm_space.rs doc comments state "The
creation of the cursor may block if another cursor having an overlapping range
is alive". -/
def tryCreateCursor (alive : List (Nat × Nat)) (r : Nat × Nat) : CursorCreation :=
  if alive.any (rangesOverlap r) then .blocked else .acquired (r :: alive)

/-- Dropping a cursor releases its range lock. -/
def dropCursor (alive : List (Nat × Nat)) (c : Nat × Nat) : List (Nat × Nat) :=
  alive.erase c

/-- C5: creating a second cursor over a range overlapping an alive cursor `c`
does not return an error: it blocks, and after the conflicting cursor is
dropped (no other alive cursor overlapping), the same creation succeeds. -/
theorem claim_C5_overlap_blocks_then_succeeds (alive : List (Nat × Nat))
    (r c : Nat × Nat) (hmem : c ∈ alive) (hov : rangesOverlap r c = true)
    (hrest : ∀ d ∈ dropCursor alive c, rangesOverlap r d = false) :
    tryCreateCursor alive r = .blocked ∧
    tryCreateCursor (dropCursor alive c) r = .acquired (r :: dropCursor alive c) := by
  constructor
  · have h : alive.any (rangesOverlap r) = true :=
      List.any_eq_true.mpr ⟨c, hmem, hov⟩
    simp [tryCreateCursor, h]
  · have h : (dropCursor alive c).any (rangesOverlap r) = false := by
      rw [List.any_eq_false]
      intro d hd
      simp [hrest d hd]
    simp [tryCreateCursor, h]

/-- Witness for C5 with the ranges of the `overlapping_cursors` test. -/
theorem claim_C5_witness :
    tryCreateCursor [(0x5000, 0x6000)] (0x5800, 0x6800) = .blocked ∧
    tryCreateCursor (dropCursor [(0x5000, 0x6000)] (0x5000, 0x6000)) (0x5800, 0x6800) =
      .acquired ((0x5800, 0x6800) :: dropCursor [(0x5000, 0x6000)] (0x5000, 0x6000)) :=
  claim_C5_overlap_blocks_then_succeeds [(0x5000, 0x6000)] (0x5800, 0x6800)
    (0x5000, 0x6000) (by decide) (by decide) (by decide)

/-! ## `CursorMut::map`, `CursorMut::unmap` and the TLB flusher (C1, C7, C9)

The `CursorMut` logic is `src/ostd/src/mm/vm_space.rs` (lines 326–386); the
page-table `take_next` and the flusher internals (`mm/page_table/cursor.rs`,
`mm/tlb.rs`) are not under the sources and are modelled from the spec.  The
page table is kept at page granularity: slots are keyed by page index
(virtual address divided by `PAGE_SIZE`). -/

inductive TlbFlushOp where
  | All
  | Address (va : Nat)
deriving DecidableEq, Repr

inductive TlbEvent where
  /-- `issue_tlb_flush` / `issue_tlb_flush_with`: an invalidation is issued
  to the cursor's flusher. -/
  | issue (op : TlbFlushOp)
  /-- a removed or replaced frame is dropped. -/
  | dropFrame (va frame : Nat)
  /-- `dispatch_tlb_flush` performs the queued invalidations. -/
  | dispatched
deriving DecidableEq, Repr

/-- Modelled from the spec: the per-cursor TLB flusher (`mm/tlb.rs` is not
under the sources).  `issue_tlb_flush_with` keeps the attached frame alive in
the flusher; `dispatch_tlb_flush` performs the invalidations and only then
drops the frames kept for flush ordering. -/
structure TlbFlusher where
  needRemoteFlush : Bool
  pending : List (Nat × Nat)
deriving DecidableEq, Repr

def issueTlbFlushWith (fl : TlbFlusher) (va frame : Nat) : TlbFlusher × List TlbEvent :=
  ({ fl with pending := fl.pending ++ [(va, frame)] }, [.issue (.Address va)])

def issueTlbFlush (fl : TlbFlusher) (op : TlbFlushOp) : TlbFlusher × List TlbEvent :=
  (fl, [.issue op])

def dispatchTlbFlush (fl : TlbFlusher) : TlbFlusher × List TlbEvent :=
  ({ fl with pending := [] },
    .dispatched :: fl.pending.map (fun p => .dropFrame p.1 p.2))

/-- A slot of the user page table: a tracked mapping (a frame owned through
the frame model) or an untracked one (raw physical memory). -/
inductive PtEntry where
  | tracked (frame : Nat) (prop : PageProperty)
  | untracked (pa : Nat) (prop : PageProperty)
deriving DecidableEq, Repr

/-- The mapped slots of a user page table, keyed by page index. -/
abbrev VmMappings := List (Nat × PtEntry)

def vaInRange (cur endIdx : Nat) (e : Nat × PtEntry) : Bool :=
  decide (cur ≤ e.1) && decide (e.1 < endIdx)

/-- The element with the smallest key. -/
def minByVa : List (Nat × PtEntry) → Option (Nat × PtEntry)
  | [] => none
  | e :: rest =>
    match minByVa rest with
    | none => some e
    | some b => if e.1 ≤ b.1 then some e else some b

/-- Modelled from the spec: `take_next` finds the next present mapping in the
remaining range (the lowest-addressed one) and removes it, returning it;
`NotMapped` (here `none`) when the range holds no present mapping. -/
def findNext (pt : VmMappings) (cur endIdx : Nat) : Option (Nat × PtEntry) :=
  minByVa (pt.filter (vaInRange cur endIdx))

/-- The `loop` of `CursorMut::unmap`: repeatedly `take_next`; a tracked
mapping is dropped immediately in the single-CPU flush-all fast path
(`!need_remote_flush && tlb_prefer_flush_all`), otherwise it is issued to the
flusher with the frame attached; `NotMapped` breaks; an untracked mapping
panics ("found untracked memory mapped into `VmSpace`"), embedded as `none`.
`fuel` only bounds the recursion; the caller always passes enough. -/
def unmapLoop (fuel : Nat) (pt : VmMappings) (cur endIdx : Nat) (fl : TlbFlusher)
    (preferAll : Bool) : Option (VmMappings × TlbFlusher × List TlbEvent) :=
  match fuel with
  | 0 => none
  | fuel + 1 =>
    match findNext pt cur endIdx with
    | none => some (pt, fl, [])
    | some (va, .tracked frame prop) =>
      let pt2 := pt.erase (va, .tracked frame prop)
      if !fl.needRemoteFlush && preferAll then
        (unmapLoop fuel pt2 (va + 1) endIdx fl preferAll).map
          (fun r => (r.1, r.2.1, TlbEvent.dropFrame va frame :: r.2.2))
      else
        let st := issueTlbFlushWith fl va frame
        (unmapLoop fuel pt2 (va + 1) endIdx st.1 preferAll).map
          (fun r => (r.1, r.2.1, st.2 ++ r.2.2))
    | some (_, .untracked _ _) => none

/-- `CursorMut::unmap` (vm_space.rs): asserts `len % PAGE_SIZE == 0` (a panic,
embedded as `none`), computes `tlb_prefer_flush_all = len >
FLUSH_ALL_RANGE_THRESHOLD`, runs the take-next loop over the next `len` bytes,
issues a flush-all in the fast path, and finally dispatches the flusher.
`cur` is the cursor's page index; the result is the table and the
chronological event trace. -/
def cursorUnmap (pt : VmMappings) (cur len : Nat) (needRemote : Bool) :
    Option (VmMappings × List TlbEvent) :=
  if len % PAGE_SIZE ≠ 0 then none
  else
    let preferAll : Bool := decide (len > FLUSH_ALL_RANGE_THRESHOLD)
    let endIdx := cur + len / PAGE_SIZE
    match unmapLoop (pt.length + 1) pt cur endIdx ⟨needRemote, []⟩ preferAll with
    | none => none
    | some (pt2, fl2, evs) =>
      let st3 :=
        if !fl2.needRemoteFlush && preferAll then issueTlbFlush fl2 .All
        else (fl2, [])
      let st4 := dispatchTlbFlush st3.1
      some (pt2, evs ++ st3.2 ++ st4.2)

/-- `CursorMut::map` (vm_space.rs): install the frame at the current slot; if
a frame was previously mapped there, issue a TLB flush of the slot's address
with the old frame attached to the flusher and dispatch.  `none` embeds the
impossible case of an untracked mapping sitting in a `VmSpace` slot. -/
def cursorMapVm (pt : VmMappings) (cur frame : Nat) (prop : PageProperty)
    (needRemote : Bool) : Option (VmMappings × List TlbEvent) :=
  let old := (pt.find? (fun e => e.1 == cur)).map Prod.snd
  let pt2 := (cur, PtEntry.tracked frame prop) :: pt.filter (fun e => e.1 != cur)
  match old with
  | none => some (pt2, [])
  | some (.tracked oldFrame _) =>
    let st2 := issueTlbFlushWith ⟨needRemote, []⟩ cur oldFrame
    let st3 := dispatchTlbFlush st2.1
    some (pt2, st2.2 ++ st3.2)
  | some (.untracked _ _) => none

def opCovers (op : TlbFlushOp) (va : Nat) : Bool :=
  match op with
  | .All => true
  | .Address a => a == va

/-- The claim's ordering property over an event trace: every dropped frame
has, earlier in the trace, an issued flush covering its address. -/
def dropsAfterIssue : List TlbEvent → List TlbFlushOp → Bool
  | [], _ => true
  | .issue op :: rest, issued => dropsAfterIssue rest (op :: issued)
  | .dropFrame va _ :: rest, issued =>
    issued.any (fun op => opCovers op va) && dropsAfterIssue rest issued
  | .dispatched :: rest, issued => dropsAfterIssue rest issued

/-- The amended ordering property: a dropped frame is either covered by an
earlier issued flush, or a flush-all is issued later in the trace (before the
trace — hence the operation — ends). -/
def dropsAfterIssueOrLaterAll : List TlbEvent → List TlbFlushOp → Bool
  | [], _ => true
  | .issue op :: rest, issued => dropsAfterIssueOrLaterAll rest (op :: issued)
  | .dropFrame va _ :: rest, issued =>
    (issued.any (fun op => opCovers op va) ||
      rest.any (fun e => e == TlbEvent.issue TlbFlushOp.All)) &&
      dropsAfterIssueOrLaterAll rest issued
  | .dispatched :: rest, issued => dropsAfterIssueOrLaterAll rest issued

/-- C1 counterexample: unmapping a single mapped page over a 33-page range on
a single CPU (no remote flush needed) takes the flush-all fast path of
`CursorMut::unmap`, which drops the removed frame *before* any TLB-flush
operation has been issued to the flusher: the trace violates the claimed
ordering. -/
theorem claim_C1_counterexample :
    (cursorUnmap
        [(0, PtEntry.tracked 7
          { r := true, w := false, x := false, user := false, global := false,
            cache := CachePolicy.Writeback })]
        0 (33 * PAGE_SIZE) false).map
      (fun res => dropsAfterIssue res.2 []) = some false := by decide

/-! ### Facts about `findNext` and the unmap loop -/

theorem minByVa_eq_none (l : List (Nat × PtEntry)) : minByVa l = none ↔ l = [] := by
  cases l with
  | nil => simp [minByVa]
  | cons e rest =>
    simp only [minByVa]
    cases minByVa rest with
    | none => simp
    | some b => by_cases h : e.1 ≤ b.1 <;> simp [h]

theorem minByVa_mem_le (l : List (Nat × PtEntry)) (m : Nat × PtEntry)
    (h : minByVa l = some m) : m ∈ l ∧ ∀ e ∈ l, m.1 ≤ e.1 := by
  induction l generalizing m with
  | nil => simp [minByVa] at h
  | cons a rest ih =>
    simp only [minByVa] at h
    cases hr : minByVa rest with
    | none =>
      rw [hr] at h
      injection h with h
      subst h
      have hrest := (minByVa_eq_none rest).mp hr
      subst hrest
      refine ⟨List.mem_cons_self a [], ?_⟩
      intro e he
      rcases List.mem_singleton.mp he with rfl
      exact Nat.le_refl _
    | some b =>
      rw [hr] at h
      dsimp only at h
      rcases ih b hr with ⟨hbmem, hble⟩
      by_cases hle : a.1 ≤ b.1
      · rw [if_pos hle] at h
        injection h with h
        subst h
        refine ⟨List.mem_cons_self a rest, ?_⟩
        intro e he
        rcases List.mem_cons.mp he with rfl | he2
        · exact Nat.le_refl _
        · exact Nat.le_trans hle (hble e he2)
      · rw [if_neg hle] at h
        injection h with h
        subst h
        refine ⟨List.mem_cons_of_mem a hbmem, ?_⟩
        intro e he
        rcases List.mem_cons.mp he with rfl | he2
        · exact Nat.le_of_lt (Nat.lt_of_not_le hle)
        · exact hble e he2

theorem findNext_eq_none (pt : VmMappings) (cur endIdx : Nat) :
    findNext pt cur endIdx = none ↔ ∀ e ∈ pt, vaInRange cur endIdx e = false := by
  rw [findNext, minByVa_eq_none, List.filter_eq_nil_iff]
  simp

theorem findNext_some (pt : VmMappings) (cur endIdx : Nat) (m : Nat × PtEntry)
    (h : findNext pt cur endIdx = some m) :
    m ∈ pt ∧ vaInRange cur endIdx m = true ∧
      ∀ e ∈ pt, vaInRange cur endIdx e = true → m.1 ≤ e.1 := by
  rw [findNext] at h
  rcases minByVa_mem_le _ _ h with ⟨hmem, hle⟩
  rw [List.mem_filter] at hmem
  exact ⟨hmem.1, hmem.2, fun e he hr => hle e (List.mem_filter.mpr ⟨he, hr⟩)⟩

theorem vaInRange_iff (cur endIdx : Nat) (e : Nat × PtEntry) :
    vaInRange cur endIdx e = true ↔ cur ≤ e.1 ∧ e.1 < endIdx := by
  simp [vaInRange]

theorem keys_nodup_inj (pt : VmMappings) (hnd : (pt.map Prod.fst).Nodup)
    {a b : Nat × PtEntry} (ha : a ∈ pt) (hb : b ∈ pt) (hk : a.1 = b.1) : a = b := by
  induction pt with
  | nil => simp at ha
  | cons c rest ih =>
    rw [List.map_cons, List.nodup_cons] at hnd
    rcases List.mem_cons.mp ha with rfl | ha2 <;> rcases List.mem_cons.mp hb with rfl | hb2
    · rfl
    · exact absurd (by rw [hk]; exact List.mem_map_of_mem Prod.fst hb2) hnd.1
    · exact absurd (by rw [← hk]; exact List.mem_map_of_mem Prod.fst ha2) hnd.1
    · exact ih hnd.2 ha2 hb2

theorem range_transfer (pt : VmMappings) (hnd : (pt.map Prod.fst).Nodup)
    (cur endIdx : Nat) (m : Nat × PtEntry) (hfn : findNext pt cur endIdx = some m)
    {e : Nat × PtEntry} (he : e ∈ pt) (hne : e ≠ m) :
    vaInRange cur endIdx e = vaInRange (m.1 + 1) endIdx e := by
  rcases findNext_some pt cur endIdx m hfn with ⟨hmem, hmr, hmin⟩
  rcases (vaInRange_iff _ _ _).mp hmr with ⟨hcm, _⟩
  have hkne : e.1 ≠ m.1 := fun hk => hne (keys_nodup_inj pt hnd he hmem hk)
  cases hr : vaInRange cur endIdx e
  · cases hr2 : vaInRange (m.1 + 1) endIdx e
    · rfl
    · exfalso
      rcases (vaInRange_iff _ _ _).mp hr2 with ⟨h1, h2⟩
      have hmid : vaInRange cur endIdx e = true :=
        (vaInRange_iff _ _ _).mpr ⟨by omega, h2⟩
      rw [hr] at hmid
      exact Bool.false_ne_true hmid
  · rcases (vaInRange_iff _ _ _).mp hr with ⟨h1, h2⟩
    have hmle := hmin e he hr
    have hmid : vaInRange (m.1 + 1) endIdx e = true :=
      (vaInRange_iff _ _ _).mpr ⟨by omega, h2⟩
    rw [hmid]

/-- Behaviour of the unmap loop: it panics exactly when an untracked mapping
lies in the remaining range, and on normal return the table holds exactly the
out-of-range slots (every in-range mapping removed, none other touched). -/
theorem unmapLoop_spec (fuel : Nat) :
    ∀ (pt : VmMappings) (cur endIdx : Nat) (fl : TlbFlusher) (preferAll : Bool),
      (pt.map Prod.fst).Nodup → pt.length < fuel →
      ((unmapLoop fuel pt cur endIdx fl preferAll = none ↔
          ∃ va pa pr, (va, PtEntry.untracked pa pr) ∈ pt ∧ cur ≤ va ∧ va < endIdx) ∧
        (∀ pt2 fl2 evs,
          unmapLoop fuel pt cur endIdx fl preferAll = some (pt2, fl2, evs) →
          ∀ e, e ∈ pt2 ↔ (e ∈ pt ∧ vaInRange cur endIdx e = false))) := by
  induction fuel with
  | zero =>
    intro pt cur endIdx fl preferAll hnd hlen
    omega
  | succ fuel ih =>
    intro pt cur endIdx fl preferAll hnd hlen
    cases hfn : findNext pt cur endIdx with
    | none =>
      have hstep : unmapLoop (fuel + 1) pt cur endIdx fl preferAll = some (pt, fl, []) := by
        simp [unmapLoop, hfn]
      have hnone := (findNext_eq_none pt cur endIdx).mp hfn
      constructor
      · rw [hstep]
        constructor
        · intro hcon
          exact Option.noConfusion hcon
        · rintro ⟨va, pa, pr, hmem, h1, h2⟩
          have hx := hnone _ hmem
          have hy : vaInRange cur endIdx (va, PtEntry.untracked pa pr) = true :=
            (vaInRange_iff _ _ _).mpr ⟨h1, h2⟩
          rw [hx] at hy
          exact Bool.noConfusion hy
      · intro pt2 fl2 evs hsome e
        rw [hstep] at hsome
        simp only [Option.some.injEq, Prod.mk.injEq] at hsome
        obtain ⟨h1, _, _⟩ := hsome
        subst h1
        exact ⟨fun he => ⟨he, hnone e he⟩, fun h => h.1⟩
    | some m =>
      obtain ⟨va, ent⟩ := m
      cases ent with
      | untracked pa pr =>
        have hstep : unmapLoop (fuel + 1) pt cur endIdx fl preferAll = none := by
          simp [unmapLoop, hfn]
        rcases findNext_some _ _ _ _ hfn with ⟨hmem, hmr, _⟩
        rcases (vaInRange_iff _ _ _).mp hmr with ⟨h1, h2⟩
        constructor
        · rw [hstep]
          exact ⟨fun _ => ⟨va, pa, pr, hmem, h1, h2⟩, fun _ => rfl⟩
        · intro pt2 fl2 evs hsome
          rw [hstep] at hsome
          exact Option.noConfusion hsome
      | tracked frame prop =>
        rcases findNext_some _ _ _ _ hfn with ⟨hmem, hmr, hmin⟩
        have hnd2 : ((pt.erase (va, PtEntry.tracked frame prop)).map Prod.fst).Nodup :=
          List.Nodup.sublist ((List.erase_sublist _ _).map Prod.fst) hnd
        have hpos : 0 < pt.length := List.length_pos_of_mem hmem
        have hlen2 : (pt.erase (va, PtEntry.tracked frame prop)).length < fuel := by
          rw [List.length_erase_of_mem hmem]
          omega
        have hptnd : pt.Nodup := List.Nodup.of_map Prod.fst hnd
        have hmemq : ∀ e : Nat × PtEntry,
            e ∈ pt.erase (va, PtEntry.tracked frame prop) ↔
              (e ≠ (va, PtEntry.tracked frame prop) ∧ e ∈ pt) :=
          fun e => List.Nodup.mem_erase_iff hptnd
        have hcur_le : cur ≤ va := ((vaInRange_iff _ _ _).mp hmr).1
        have huntracked_iff :
            (∃ va2 pa pr, (va2, PtEntry.untracked pa pr) ∈
                pt.erase (va, PtEntry.tracked frame prop) ∧
              va + 1 ≤ va2 ∧ va2 < endIdx) ↔
            (∃ va2 pa pr, (va2, PtEntry.untracked pa pr) ∈ pt ∧
              cur ≤ va2 ∧ va2 < endIdx) := by
          constructor
          · rintro ⟨va2, pa, pr, hm2, h1, h2⟩
            exact ⟨va2, pa, pr, List.mem_of_mem_erase hm2, by omega, h2⟩
          · rintro ⟨va2, pa, pr, hm2, h1, h2⟩
            have hne : (va2, PtEntry.untracked pa pr) ≠ (va, PtEntry.tracked frame prop) := by
              intro hcon
              injection hcon with _ hcon2
              exact PtEntry.noConfusion hcon2
            have htr := range_transfer pt hnd cur endIdx _ hfn hm2 hne
            have hr1 : vaInRange cur endIdx (va2, PtEntry.untracked pa pr) = true :=
              (vaInRange_iff _ _ _).mpr ⟨h1, h2⟩
            rw [htr] at hr1
            rcases (vaInRange_iff _ _ _).mp hr1 with ⟨h1b, h2b⟩
            exact ⟨va2, pa, pr, (hmemq _).mpr ⟨hne, hm2⟩, h1b, h2b⟩
        have hmem_iff : ∀ e : Nat × PtEntry,
            (e ∈ pt.erase (va, PtEntry.tracked frame prop) ∧
              vaInRange (va + 1) endIdx e = false) ↔
            (e ∈ pt ∧ vaInRange cur endIdx e = false) := by
          intro e
          constructor
          · rintro ⟨he, hr⟩
            rcases (hmemq e).mp he with ⟨hne, hept⟩
            have htr := range_transfer pt hnd cur endIdx _ hfn hept hne
            exact ⟨hept, by rw [htr]; exact hr⟩
          · rintro ⟨hept, hr⟩
            have hne : e ≠ (va, PtEntry.tracked frame prop) := by
              intro hcon
              subst hcon
              rw [hmr] at hr
              exact Bool.noConfusion hr
            have htr := range_transfer pt hnd cur endIdx _ hfn hept hne
            exact ⟨(hmemq e).mpr ⟨hne, hept⟩, by rw [← htr]; exact hr⟩
        cases hcond : (!fl.needRemoteFlush && preferAll) with
        | true =>
          have hstep : unmapLoop (fuel + 1) pt cur endIdx fl preferAll =
              (unmapLoop fuel (pt.erase (va, PtEntry.tracked frame prop)) (va + 1)
                  endIdx fl preferAll).map
                (fun r => (r.1, r.2.1, TlbEvent.dropFrame va frame :: r.2.2)) := by
            simp [unmapLoop, hfn, hcond]
          rcases ih (pt.erase (va, PtEntry.tracked frame prop)) (va + 1) endIdx fl
              preferAll hnd2 hlen2 with ⟨ihnone, ihsome⟩
          constructor
          · rw [hstep, Option.map_eq_none', ihnone]
            exact huntracked_iff
          · intro pt2 fl2 evs hsome e
            rw [hstep] at hsome
            cases hrec : unmapLoop fuel (pt.erase (va, PtEntry.tracked frame prop))
                (va + 1) endIdx fl preferAll with
            | none =>
              rw [hrec] at hsome
              exact Option.noConfusion hsome
            | some r =>
              rw [hrec] at hsome
              simp only [Option.map_some', Option.some.injEq, Prod.mk.injEq] at hsome
              obtain ⟨h1, _, _⟩ := hsome
              have hchar := ihsome r.1 r.2.1 r.2.2 (by rw [hrec])
              rw [← h1, hchar e]
              exact hmem_iff e
        | false =>
          have hstep : unmapLoop (fuel + 1) pt cur endIdx fl preferAll =
              (unmapLoop fuel (pt.erase (va, PtEntry.tracked frame prop)) (va + 1)
                  endIdx (issueTlbFlushWith fl va frame).1 preferAll).map
                (fun r => (r.1, r.2.1, (issueTlbFlushWith fl va frame).2 ++ r.2.2)) := by
            simp [unmapLoop, hfn, hcond]
          rcases ih (pt.erase (va, PtEntry.tracked frame prop)) (va + 1) endIdx
              (issueTlbFlushWith fl va frame).1 preferAll hnd2 hlen2 with ⟨ihnone, ihsome⟩
          constructor
          · rw [hstep, Option.map_eq_none', ihnone]
            exact huntracked_iff
          · intro pt2 fl2 evs hsome e
            rw [hstep] at hsome
            cases hrec : unmapLoop fuel (pt.erase (va, PtEntry.tracked frame prop))
                (va + 1) endIdx (issueTlbFlushWith fl va frame).1 preferAll with
            | none =>
              rw [hrec] at hsome
              exact Option.noConfusion hsome
            | some r =>
              rw [hrec] at hsome
              simp only [Option.map_some', Option.some.injEq, Prod.mk.injEq] at hsome
              obtain ⟨h1, _, _⟩ := hsome
              have hchar := ihsome r.1 r.2.1 r.2.2 (by rw [hrec])
              rw [← h1, hchar e]
              exact hmem_iff e

/-- C7: if `CursorMut::unmap` encounters an untracked mapping in its range it
panics ("found untracked memory mapped into `VmSpace`") — embedded as `none` —
rather than returning an error or skipping it; and it returns normally exactly
when no untracked mapping lies in the range, so an untracked mapping is never
removed and reported as a recoverable result. -/
theorem claim_C7_unmap_untracked_fatal (pt : VmMappings) (cur len : Nat)
    (needRemote : Bool) (halign : len % PAGE_SIZE = 0)
    (hnd : (pt.map Prod.fst).Nodup) :
    cursorUnmap pt cur len needRemote = none ↔
      ∃ va pa pr, (va, PtEntry.untracked pa pr) ∈ pt ∧ cur ≤ va ∧
        va < cur + len / PAGE_SIZE := by
  rcases unmapLoop_spec (pt.length + 1) pt cur (cur + len / PAGE_SIZE)
      ⟨needRemote, []⟩ (decide (len > FLUSH_ALL_RANGE_THRESHOLD)) hnd (by omega)
    with ⟨hnone, _⟩
  simp only [cursorUnmap, if_neg (not_not_intro halign)]
  cases hL : unmapLoop (pt.length + 1) pt cur (cur + len / PAGE_SIZE)
      ⟨needRemote, []⟩ (decide (len > FLUSH_ALL_RANGE_THRESHOLD)) with
  | none =>
    simp only [hL]
    exact ⟨fun _ => hnone.mp hL, fun _ => trivial⟩
  | some r =>
    obtain ⟨pt2, fl2, evsL⟩ := r
    simp only [hL]
    constructor
    · intro hcon
      exact Option.noConfusion hcon
    · intro hex
      have hmid := hnone.mpr hex
      rw [hL] at hmid
      exact Option.noConfusion hmid

/-- Witness for C7: a page table holding an untracked mapping at page 0;
unmapping the first page aborts. -/
theorem claim_C7_witness :
    cursorUnmap
        [(0, PtEntry.untracked 42
          { r := true, w := false, x := false, user := false, global := false,
            cache := CachePolicy.Writeback })] 0 PAGE_SIZE false = none ↔
      ∃ va pa pr, (va, PtEntry.untracked pa pr) ∈
          [(0, PtEntry.untracked 42
            { r := true, w := false, x := false, user := false, global := false,
              cache := CachePolicy.Writeback })] ∧ 0 ≤ va ∧
        va < 0 + PAGE_SIZE / PAGE_SIZE :=
  claim_C7_unmap_untracked_fatal _ 0 PAGE_SIZE false (by decide) (by decide)

/-- `CursorMut::unmap` over an already-absent range is a no-op: it returns
normally with the table unchanged (only flush/dispatch events happen). -/
theorem cursorUnmap_noop (pt : VmMappings) (cur len : Nat) (needRemote : Bool)
    (halign : len % PAGE_SIZE = 0)
    (habsent : ∀ e ∈ pt, vaInRange cur (cur + len / PAGE_SIZE) e = false) :
    ∃ evs, cursorUnmap pt cur len needRemote = some (pt, evs) := by
  have hfn : findNext pt cur (cur + len / PAGE_SIZE) = none :=
    (findNext_eq_none _ _ _).mpr habsent
  have hloop : unmapLoop (pt.length + 1) pt cur (cur + len / PAGE_SIZE)
      ⟨needRemote, []⟩ (decide (len > FLUSH_ALL_RANGE_THRESHOLD)) =
      some (pt, ⟨needRemote, []⟩, []) := by
    simp [unmapLoop, hfn]
  refine ⟨(if (!needRemote && decide (len > FLUSH_ALL_RANGE_THRESHOLD)) then
      [TlbEvent.issue TlbFlushOp.All] else []) ++ [TlbEvent.dispatched], ?_⟩
  simp only [cursorUnmap, if_neg (not_not_intro halign), hloop]
  cases h : (!needRemote && decide (len > FLUSH_ALL_RANGE_THRESHOLD)) <;>
    simp [h, issueTlbFlush, dispatchTlbFlush]

/-- C9: for an already-absent page-aligned range, `unmap` is a no-op and never
errors — it returns normally and leaves the page table unchanged — and running
`unmap` twice over the same range yields the same final table as running it
once. -/
theorem claim_C9_unmap_idempotent (pt : VmMappings) (cur len : Nat)
    (needRemote : Bool) (halign : len % PAGE_SIZE = 0)
    (hnd : (pt.map Prod.fst).Nodup) :
    ((∀ e ∈ pt, vaInRange cur (cur + len / PAGE_SIZE) e = false) →
      ∃ evs, cursorUnmap pt cur len needRemote = some (pt, evs)) ∧
    (∀ pt2 evs, cursorUnmap pt cur len needRemote = some (pt2, evs) →
      (∀ e, e ∈ pt2 ↔ (e ∈ pt ∧ vaInRange cur (cur + len / PAGE_SIZE) e = false)) ∧
      ∃ evs2, cursorUnmap pt2 cur len needRemote = some (pt2, evs2)) := by
  constructor
  · intro habsent
    exact cursorUnmap_noop pt cur len needRemote halign habsent
  · intro pt2 evs hsome
    rcases unmapLoop_spec (pt.length + 1) pt cur (cur + len / PAGE_SIZE)
        ⟨needRemote, []⟩ (decide (len > FLUSH_ALL_RANGE_THRESHOLD)) hnd (by omega)
      with ⟨_, hsomechar⟩
    simp only [cursorUnmap, if_neg (not_not_intro halign)] at hsome
    cases hL : unmapLoop (pt.length + 1) pt cur (cur + len / PAGE_SIZE)
        ⟨needRemote, []⟩ (decide (len > FLUSH_ALL_RANGE_THRESHOLD)) with
    | none =>
      rw [hL] at hsome
      exact Option.noConfusion hsome
    | some r =>
      obtain ⟨pt2L, fl2, evsL⟩ := r
      rw [hL] at hsome
      simp only [Option.some.injEq, Prod.mk.injEq] at hsome
      obtain ⟨h1, _⟩ := hsome
      subst h1
      have hchar := hsomechar pt2L fl2 evsL hL
      have habsent2 : ∀ e ∈ pt2L, vaInRange cur (cur + len / PAGE_SIZE) e = false :=
        fun e he => ((hchar e).mp he).2
      exact ⟨hchar, cursorUnmap_noop pt2L cur len needRemote halign habsent2⟩

/-- Witness for C9: a table whose only mapping (page 5) lies outside the
unmapped range `[0, 1)`. -/
theorem claim_C9_witness :
    ((∀ e ∈ [(5, PtEntry.tracked 7
        { r := true, w := false, x := false, user := false, global := false,
          cache := CachePolicy.Writeback })],
        vaInRange 0 (0 + PAGE_SIZE / PAGE_SIZE) e = false) →
      ∃ evs, cursorUnmap [(5, PtEntry.tracked 7
        { r := true, w := false, x := false, user := false, global := false,
          cache := CachePolicy.Writeback })] 0 PAGE_SIZE false =
        some ([(5, PtEntry.tracked 7
          { r := true, w := false, x := false, user := false, global := false,
            cache := CachePolicy.Writeback })], evs)) ∧
    (∀ pt2 evs, cursorUnmap [(5, PtEntry.tracked 7
        { r := true, w := false, x := false, user := false, global := false,
          cache := CachePolicy.Writeback })] 0 PAGE_SIZE false = some (pt2, evs) →
      (∀ e, e ∈ pt2 ↔ (e ∈ [(5, PtEntry.tracked 7
        { r := true, w := false, x := false, user := false, global := false,
          cache := CachePolicy.Writeback })] ∧
        vaInRange 0 (0 + PAGE_SIZE / PAGE_SIZE) e = false)) ∧
      ∃ evs2, cursorUnmap pt2 0 PAGE_SIZE false = some (pt2, evs2)) :=
  claim_C9_unmap_idempotent _ 0 PAGE_SIZE false (by decide) (by decide)

/-- In the fast path (no remote flush needed and flush-all preferred), the
unmap loop leaves the flusher untouched and emits only drop events. -/
theorem unmapLoop_fast (fuel : Nat) :
    ∀ (pt : VmMappings) (cur endIdx : Nat) (fl : TlbFlusher) (preferAll : Bool)
      (pt2 : VmMappings) (fl2 : TlbFlusher) (evs : List TlbEvent),
      (!fl.needRemoteFlush && preferAll) = true →
      unmapLoop fuel pt cur endIdx fl preferAll = some (pt2, fl2, evs) →
      fl2 = fl ∧ ∀ e ∈ evs, ∃ va f, e = TlbEvent.dropFrame va f := by
  induction fuel with
  | zero =>
    intro pt cur endIdx fl preferAll pt2 fl2 evs hcond hsome
    exact Option.noConfusion hsome
  | succ fuel ih =>
    intro pt cur endIdx fl preferAll pt2 fl2 evs hcond hsome
    cases hfn : findNext pt cur endIdx with
    | none =>
      simp only [unmapLoop, hfn, Option.some.injEq, Prod.mk.injEq] at hsome
      obtain ⟨_, h2, h3⟩ := hsome
      subst h2
      subst h3
      exact ⟨rfl, by simp⟩
    | some m =>
      obtain ⟨va, ent⟩ := m
      cases ent with
      | untracked pa pr =>
        simp only [unmapLoop, hfn] at hsome
        exact Option.noConfusion hsome
      | tracked frame prop =>
        simp only [unmapLoop, hfn, hcond, if_true] at hsome
        cases hrec : unmapLoop fuel (pt.erase (va, PtEntry.tracked frame prop))
            (va + 1) endIdx fl preferAll with
        | none =>
          rw [hrec] at hsome
          exact Option.noConfusion hsome
        | some r =>
          rw [hrec] at hsome
          simp only [Option.map_some', Option.some.injEq, Prod.mk.injEq] at hsome
          obtain ⟨_, h2, h3⟩ := hsome
          subst h2
          subst h3
          rcases ih _ _ _ _ _ r.1 r.2.1 r.2.2 hcond (by rw [hrec]) with ⟨hfl, hdrops⟩
          refine ⟨hfl, ?_⟩
          intro e he
          rcases List.mem_cons.mp he with rfl | he2
          · exact ⟨va, frame, rfl⟩
          · exact hdrops e he2

/-- Outside the fast path, the unmap loop only issues per-address flushes,
attaching each removed frame to the flusher's pending list in order. -/
theorem unmapLoop_slow (fuel : Nat) :
    ∀ (pt : VmMappings) (cur endIdx : Nat) (fl : TlbFlusher) (preferAll : Bool)
      (pt2 : VmMappings) (fl2 : TlbFlusher) (evs : List TlbEvent),
      (!fl.needRemoteFlush && preferAll) = false →
      unmapLoop fuel pt cur endIdx fl preferAll = some (pt2, fl2, evs) →
      ∃ ps : List (Nat × Nat),
        fl2 = { fl with pending := fl.pending ++ ps } ∧
        evs = ps.map (fun p => TlbEvent.issue (TlbFlushOp.Address p.1)) := by
  induction fuel with
  | zero =>
    intro pt cur endIdx fl preferAll pt2 fl2 evs hcond hsome
    exact Option.noConfusion hsome
  | succ fuel ih =>
    intro pt cur endIdx fl preferAll pt2 fl2 evs hcond hsome
    cases hfn : findNext pt cur endIdx with
    | none =>
      simp only [unmapLoop, hfn, Option.some.injEq, Prod.mk.injEq] at hsome
      obtain ⟨_, h2, h3⟩ := hsome
      subst h2
      subst h3
      refine ⟨[], ?_, rfl⟩
      cases fl
      simp
    | some m =>
      obtain ⟨va, ent⟩ := m
      cases ent with
      | untracked pa pr =>
        simp only [unmapLoop, hfn] at hsome
        exact Option.noConfusion hsome
      | tracked frame prop =>
        simp only [unmapLoop, hfn, hcond, Bool.false_eq_true, if_false,
          issueTlbFlushWith] at hsome
        cases hrec : unmapLoop fuel (pt.erase (va, PtEntry.tracked frame prop))
            (va + 1) endIdx ⟨fl.needRemoteFlush, fl.pending ++ [(va, frame)]⟩
            preferAll with
        | none =>
          rw [hrec] at hsome
          exact Option.noConfusion hsome
        | some r =>
          rw [hrec] at hsome
          simp only [Option.map_some', Option.some.injEq, Prod.mk.injEq] at hsome
          obtain ⟨_, h2, h3⟩ := hsome
          subst h2
          subst h3
          rcases ih _ _ _ ⟨fl.needRemoteFlush, fl.pending ++ [(va, frame)]⟩ _
              r.1 r.2.1 r.2.2 (by simpa using hcond) (by rw [hrec]) with ⟨ps, hfl, hevs⟩
          refine ⟨(va, frame) :: ps, ?_, ?_⟩
          · rw [hfl]
            simp [List.append_assoc]
          · rw [hevs]
            simp

theorem all_drops_eq_map (evs : List TlbEvent)
    (h : ∀ e ∈ evs, ∃ va f, e = TlbEvent.dropFrame va f) :
    ∃ ds : List (Nat × Nat), evs = ds.map (fun p => TlbEvent.dropFrame p.1 p.2) := by
  induction evs with
  | nil => exact ⟨[], rfl⟩
  | cons e rest ih =>
    rcases h e (List.mem_cons_self e rest) with ⟨va, f, rfl⟩
    rcases ih (fun e2 he2 => h e2 (List.mem_cons_of_mem _ he2)) with ⟨ds, rfl⟩
    exact ⟨(va, f) :: ds, rfl⟩

theorem dropsOrAll_drops_then_all (ds : List (Nat × Nat)) (issued : List TlbFlushOp) :
    dropsAfterIssueOrLaterAll
      (ds.map (fun p => TlbEvent.dropFrame p.1 p.2) ++
        [TlbEvent.issue TlbFlushOp.All, TlbEvent.dispatched]) issued = true := by
  induction ds generalizing issued with
  | nil => simp [dropsAfterIssueOrLaterAll]
  | cons d rest ih =>
    simp [dropsAfterIssueOrLaterAll, ih]

theorem dropsOrAll_issues_append (ps : List (Nat × Nat)) (rest : List TlbEvent)
    (issued : List TlbFlushOp) :
    dropsAfterIssueOrLaterAll
      (ps.map (fun p => TlbEvent.issue (TlbFlushOp.Address p.1)) ++ rest) issued =
    dropsAfterIssueOrLaterAll rest
      ((ps.map (fun p => TlbFlushOp.Address p.1)).reverse ++ issued) := by
  induction ps generalizing issued with
  | nil => simp
  | cons p rest2 ih =>
    simp only [List.map_cons, List.cons_append, dropsAfterIssueOrLaterAll,
      List.append_eq]
    rw [ih (TlbFlushOp.Address p.1 :: issued)]
    congr 1
    simp [List.append_assoc]

theorem dropsOrAll_dispatch_drops (ps : List (Nat × Nat)) (issued : List TlbFlushOp)
    (h : ∀ p ∈ ps, issued.any (fun op => opCovers op p.1) = true) :
    dropsAfterIssueOrLaterAll
      (TlbEvent.dispatched :: ps.map (fun p => TlbEvent.dropFrame p.1 p.2))
      issued = true := by
  simp only [dropsAfterIssueOrLaterAll]
  induction ps with
  | nil => simp [dropsAfterIssueOrLaterAll]
  | cons p rest ih =>
    simp only [List.map_cons, dropsAfterIssueOrLaterAll]
    rw [h p (List.mem_cons_self p rest)]
    simp only [Bool.true_or, Bool.true_and]
    exact ih (fun q hq => h q (List.mem_cons_of_mem _ hq))

/-- C1 (amended): in `CursorMut::map` a replaced frame is always issued to the
flusher — with a flush of its virtual address — before it is dropped at
dispatch; in `CursorMut::unmap` every removed frame is either issued to the
flusher before being dropped, or — only in the single-CPU flush-all fast path
(`!need_remote_flush && len > FLUSH_ALL_RANGE_THRESHOLD`) — dropped
immediately, with a TLB flush-all issued later in the same operation before
the dispatch that ends it.  (The claim as stated — flush always issued before
the drop — fails in that fast path; see the counterexample.) -/
theorem claim_C1_flush_before_drop (pt : VmMappings) (cur len frame : Nat)
    (prop : PageProperty) (needRemote : Bool) (pt2 : VmMappings)
    (evs : List TlbEvent) :
    (cursorUnmap pt cur len needRemote = some (pt2, evs) →
      dropsAfterIssueOrLaterAll evs [] = true) ∧
    (cursorMapVm pt cur frame prop needRemote = some (pt2, evs) →
      dropsAfterIssue evs [] = true) := by
  constructor
  · intro hsome
    simp only [cursorUnmap] at hsome
    by_cases halign : len % PAGE_SIZE ≠ 0
    · rw [if_pos halign] at hsome
      exact Option.noConfusion hsome
    · rw [if_neg halign] at hsome
      cases hL : unmapLoop (pt.length + 1) pt cur (cur + len / PAGE_SIZE)
          ⟨needRemote, []⟩ (decide (len > FLUSH_ALL_RANGE_THRESHOLD)) with
      | none =>
        rw [hL] at hsome
        exact Option.noConfusion hsome
      | some r =>
        obtain ⟨pt2L, fl2, evsL⟩ := r
        rw [hL] at hsome
        cases hcond : (!needRemote && decide (len > FLUSH_ALL_RANGE_THRESHOLD)) with
        | true =>
          rcases unmapLoop_fast _ _ _ _ _ _ _ _ _ hcond hL with ⟨hfl, hdrops⟩
          subst hfl
          simp only [hcond, issueTlbFlush, dispatchTlbFlush, Option.some.injEq,
            Prod.mk.injEq, List.map_nil] at hsome
          obtain ⟨h1, h2⟩ := hsome
          rcases all_drops_eq_map evsL hdrops with ⟨ds, rfl⟩
          rw [← h2]
          have hmain := dropsOrAll_drops_then_all ds []
          simpa [List.append_assoc] using hmain
        | false =>
          rcases unmapLoop_slow _ _ _ _ _ _ _ _ _ hcond hL with ⟨ps, hfl, hevs⟩
          subst hfl
          subst hevs
          simp only [hcond, Bool.false_eq_true, if_false, dispatchTlbFlush,
            Option.some.injEq, Prod.mk.injEq, List.nil_append, List.append_nil] at hsome
          obtain ⟨h1, h2⟩ := hsome
          rw [← h2]
          rw [dropsOrAll_issues_append]
          apply dropsOrAll_dispatch_drops
          intro p hp
          rw [List.any_eq_true]
          refine ⟨TlbFlushOp.Address p.1, ?_, by simp [opCovers]⟩
          simp only [List.append_nil, List.mem_reverse, List.mem_map]
          exact ⟨p, hp, rfl⟩
  · intro hsome
    simp only [cursorMapVm] at hsome
    cases hold : (pt.find? (fun e => e.1 == cur)).map Prod.snd with
    | none =>
      rw [hold] at hsome
      simp only [Option.some.injEq, Prod.mk.injEq] at hsome
      obtain ⟨_, h2⟩ := hsome
      rw [← h2]
      rfl
    | some ent =>
      cases ent with
      | tracked oldFrame oprop =>
        rw [hold] at hsome
        simp only [issueTlbFlushWith, dispatchTlbFlush, Option.some.injEq,
          Prod.mk.injEq, List.nil_append, List.map_cons, List.map_nil] at hsome
        obtain ⟨_, h2⟩ := hsome
        rw [← h2]
        simp [dropsAfterIssue, opCovers]
      | untracked _ _ =>
        rw [hold] at hsome
        exact Option.noConfusion hsome

/-! ## `CursorMut::copy_from` (C3)

The wrapper is vm_space.rs lines 441–450; the page-table implementation is
not under the sources.  Modelled from the spec and the wrapper's own doc
comment ("The function allows the source cursor to operate on the mapping
before the copy happens. So it is equivalent to protect then duplicate.
Only the mapping is copied, the mapped pages are not copied."): for each
present mapping in the source range, the mutator is applied to the mapping's
properties — protecting the source — and the same frame is installed with the
resulting properties at the destination.  The destination range must be
entirely absent; a mapped destination page is a fatal precondition violation
(`none`), since overwriting would leak a frame reference. -/

/-- A page table for the copy-on-write scenario: page index ↦ (frame, props). -/
abbrev CowPt := List (Nat × Nat × PageProperty)

def cowQuery (pt : CowPt) (idx : Nat) : Option (Nat × PageProperty) :=
  (pt.find? (fun e => e.1 == idx)).map Prod.snd

def inCowRange (lo hi : Nat) (e : Nat × Nat × PageProperty) : Bool :=
  decide (lo ≤ e.1) && decide (e.1 < hi)

/-- `copy_from`, returning `(destination, source)` after the operation. -/
def copyFrom (dst src : CowPt) (lo hi : Nat) (op : PageProperty → PageProperty) :
    Option (CowPt × CowPt) :=
  if (dst.filter (inCowRange lo hi)).isEmpty then
    some
      (dst ++ (src.filter (inCowRange lo hi)).map (fun e => (e.1, e.2.1, op e.2.2)),
        src.map (fun e => if inCowRange lo hi e then (e.1, e.2.1, op e.2.2) else e))
  else none

/-- Unmapping a whole range of the scenario table. -/
def cowUnmapRange (pt : CowPt) (lo hi : Nat) : CowPt :=
  pt.filter (fun e => !inCowRange lo hi e)

/-- The number of references to frame `f` held by the alive tables (dropping
a table removes it from the list). -/
def refcount (tables : List CowPt) (f : Nat) : Nat :=
  (tables.map (fun t => (t.filter (fun e => e.2.1 == f)).length)).sum

theorem find_map_keyed (l : CowPt)
    (g : Nat × Nat × PageProperty → Nat × Nat × PageProperty)
    (hg : ∀ e, (g e).1 = e.1) (idx : Nat) :
    (l.map g).find? (fun e => e.1 == idx) = (l.find? (fun e => e.1 == idx)).map g := by
  induction l with
  | nil => rfl
  | cons a rest ih =>
    simp only [List.map_cons, List.find?_cons, hg a]
    by_cases h : (a.1 == idx) = true
    · simp [h]
    · simp [h, ih]

theorem find_filter_inrange (l : CowPt) (lo hi idx : Nat) (h1 : lo ≤ idx)
    (h2 : idx < hi) :
    (l.filter (inCowRange lo hi)).find? (fun e => e.1 == idx) =
      l.find? (fun e => e.1 == idx) := by
  induction l with
  | nil => rfl
  | cons a rest ih =>
    simp only [List.filter_cons, List.find?_cons]
    by_cases h : (a.1 == idx) = true
    · have hkey : a.1 = idx := eq_of_beq h
      have ha : inCowRange lo hi a = true := by
        simp only [inCowRange, hkey, Bool.and_eq_true, decide_eq_true_iff]
        omega
      simp [ha, h]
    · by_cases hin : inCowRange lo hi a = true
      · simp [hin, h, ih]
      · simp [hin, h, ih]

/-- C3 counterexample: with a source table mapping page 1 to frame 5 with a
writable property, `copy_from` into an empty child with the write-removing
mutator leaves the *source* with the write flag removed as well ("protect
then duplicate"), contradicting the claim that the source mapping's
properties are unchanged (still read-write). -/
theorem claim_C3_counterexample :
    (copyFrom []
        [(1, 5,
          { r := true, w := true, x := false, user := false, global := false,
            cache := CachePolicy.Writeback })] 1 2
        (fun q => { q with w := false })).map (fun r => cowQuery r.2 1) =
      some (some (5,
        { r := true, w := false, x := false, user := false, global := false,
          cache := CachePolicy.Writeback })) := by decide

theorem find_protect (src : CowPt) (lo hi idx : Nat) (h1 : lo ≤ idx) (h2 : idx < hi) :
    (src.map (fun e =>
        if inCowRange lo hi e then (e.1, e.2.1, { e.2.2 with w := false }) else e)).find?
      (fun e => e.1 == idx) =
      (src.find? (fun e => e.1 == idx)).map
        (fun e => (e.1, e.2.1, { e.2.2 with w := false })) := by
  induction src with
  | nil => rfl
  | cons a rest ih =>
    simp only [List.map_cons, List.find?_cons]
    by_cases h : (a.1 == idx) = true
    · have hkey : a.1 = idx := eq_of_beq h
      have ha : inCowRange lo hi a = true := by
        simp only [inCowRange, hkey, Bool.and_eq_true, decide_eq_true_iff]
        omega
      simp [ha, h]
    · by_cases hina : inCowRange lo hi a = true
      · simp [hina, h, ih]
      · simp [hina, h, ih]

theorem copy_child_query (P : CowPt) (lo hi F idx : Nat) (p : PageProperty)
    (h1 : lo ≤ idx) (h2 : idx < hi) (hq : cowQuery P idx = some (F, p)) :
    cowQuery ((P.filter (inCowRange lo hi)).map
        (fun e => (e.1, e.2.1, { e.2.2 with w := false }))) idx =
      some (F, { p with w := false }) := by
  simp only [cowQuery] at hq ⊢
  rw [find_map_keyed _ (fun e => (e.1, e.2.1, { e.2.2 with w := false }))
    (fun _ => rfl) idx, find_filter_inrange _ _ _ _ h1 h2]
  cases hf : P.find? (fun e => e.1 == idx) with
  | none =>
    rw [hf] at hq
    exact Option.noConfusion hq
  | some e =>
    rw [hf] at hq
    simp only [Option.map_some'] at hq ⊢
    injection hq with hq
    simp [hq]

theorem copy_src_query (P : CowPt) (lo hi F idx : Nat) (p : PageProperty)
    (h1 : lo ≤ idx) (h2 : idx < hi) (hq : cowQuery P idx = some (F, p)) :
    cowQuery (P.map (fun e =>
        if inCowRange lo hi e then (e.1, e.2.1, { e.2.2 with w := false }) else e)) idx =
      some (F, { p with w := false }) := by
  simp only [cowQuery] at hq ⊢
  rw [find_protect P lo hi idx h1 h2]
  cases hf : P.find? (fun e => e.1 == idx) with
  | none =>
    rw [hf] at hq
    exact Option.noConfusion hq
  | some e =>
    rw [hf] at hq
    simp only [Option.map_some'] at hq ⊢
    injection hq with hq
    simp [hq]

theorem unmap_query_none (pt : CowPt) (lo hi idx : Nat) (h1 : lo ≤ idx)
    (h2 : idx < hi) : cowQuery (cowUnmapRange pt lo hi) idx = none := by
  simp only [cowQuery, cowUnmapRange]
  cases hf : (pt.filter (fun e => !inCowRange lo hi e)).find? (fun e => e.1 == idx) with
  | none => rfl
  | some e =>
    exfalso
    have hpred := List.find?_some hf
    have hkey : e.1 = idx := eq_of_beq hpred
    have hfil := (List.mem_filter.mp (List.mem_of_find?_eq_some hf)).2
    have hin : inCowRange lo hi e = true := by
      simp only [inCowRange, hkey, Bool.and_eq_true, decide_eq_true_iff]
      omega
    rw [hin] at hfil
    exact Bool.noConfusion hfil

theorem unmap_filter_empty (pt : CowPt) (lo hi : Nat) :
    (cowUnmapRange pt lo hi).filter (inCowRange lo hi) = [] := by
  rw [List.filter_eq_nil_iff]
  intro a ha
  have h := (List.mem_filter.mp ha).2
  intro hcon
  rw [hcon] at h
  exact Bool.noConfusion h

theorem copy_child_refcount (P : CowPt) (lo hi F : Nat) (p : PageProperty)
    (hlohi : lo < hi) (hq : cowQuery P lo = some (F, p)) :
    1 ≤ refcount [(P.filter (inCowRange lo hi)).map
      (fun e => (e.1, e.2.1, { e.2.2 with w := false }))] F := by
  simp only [cowQuery] at hq
  cases hf : P.find? (fun e => e.1 == lo) with
  | none =>
    rw [hf] at hq
    exact Option.noConfusion hq
  | some e =>
    rw [hf, Option.map_some'] at hq
    injection hq with hq
    have hpred := List.find?_some hf
    have hkey : e.1 = lo := eq_of_beq hpred
    have hmem : e ∈ P := List.mem_of_find?_eq_some hf
    have hin : inCowRange lo hi e = true := by
      simp only [inCowRange, hkey, Bool.and_eq_true, decide_eq_true_iff]
      omega
    have hmem2 : (e.1, e.2.1, { e.2.2 with w := false }) ∈
        (P.filter (inCowRange lo hi)).map
          (fun e => (e.1, e.2.1, { e.2.2 with w := false })) :=
      List.mem_map_of_mem _ (List.mem_filter.mpr ⟨hmem, hin⟩)
    have hframe : ((e.1, e.2.1, { e.2.2 with w := false }) :
        Nat × Nat × PageProperty).2.1 == F := by
      have he21 : e.2.1 = F := by rw [hq]
      simp [he21]
    have hmem3 : (e.1, e.2.1, { e.2.2 with w := false }) ∈
        ((P.filter (inCowRange lo hi)).map
          (fun e => (e.1, e.2.1, { e.2.2 with w := false }))).filter
          (fun e => e.2.1 == F) :=
      List.mem_filter.mpr ⟨hmem2, hframe⟩
    have hpos := List.length_pos_of_mem hmem3
    simp only [refcount, List.map_cons, List.map_nil, List.sum_cons, List.sum_nil,
      Nat.add_zero]
    exact hpos

/-- C3 (amended): for a source table `P` mapping every page of `[lo, hi)` to
frame `F` with a writable property `p`, `copy_from` into an empty child with
the write-removing mutator behaves as "protect then duplicate": the child maps
every page of the range to `F` with the write flag removed; the source's own
mapping is *also* protected to the write-removed property (the amendment — the
claim said the source keeps RW); afterwards, unmapping the range from the
source leaves the source unmapped while the child's mapping of `F` is intact;
with the source dropped, the child alone still holds a reference to `F`
(refcount at least 1); a sibling copied from the source after the unmap sees
nothing; and `copy_from` into a destination that already has a mapped page in
the range is a fatal precondition error (`none`), not a silent overwrite. -/
theorem claim_C3_copy_from (P : CowPt) (lo hi F : Nat) (p : PageProperty)
    (hw : p.w = true) (hlohi : lo < hi)
    (hP : ∀ idx, lo ≤ idx → idx < hi → cowQuery P idx = some (F, p)) :
    ∃ C P2, copyFrom [] P lo hi (fun q => { q with w := false }) = some (C, P2) ∧
      (∀ idx, lo ≤ idx → idx < hi →
        cowQuery C idx = some (F, { p with w := false })) ∧
      (∀ idx, lo ≤ idx → idx < hi →
        cowQuery P2 idx = some (F, { p with w := false })) ∧
      (∀ idx, lo ≤ idx → idx < hi →
        cowQuery (cowUnmapRange P2 lo hi) idx = none ∧
        cowQuery C idx = some (F, { p with w := false })) ∧
      1 ≤ refcount [C] F ∧
      (∀ S S2, copyFrom [] (cowUnmapRange P2 lo hi) lo hi
          (fun q => { q with w := false }) = some (S, S2) →
        ∀ idx, cowQuery S idx = none) ∧
      (∀ (dst : CowPt) (idx : Nat), lo ≤ idx → idx < hi →
        (cowQuery dst idx).isSome = true →
        copyFrom dst P lo hi (fun q => { q with w := false }) = none) := by
  have hC : ∀ idx, lo ≤ idx → idx < hi →
      cowQuery ((P.filter (inCowRange lo hi)).map
        (fun e => (e.1, e.2.1, { e.2.2 with w := false }))) idx =
        some (F, { p with w := false }) :=
    fun idx h1 h2 => copy_child_query P lo hi F idx p h1 h2 (hP idx h1 h2)
  have hcf : copyFrom [] P lo hi (fun q => { q with w := false }) =
      some ((P.filter (inCowRange lo hi)).map
          (fun e => (e.1, e.2.1, { e.2.2 with w := false })),
        P.map (fun e =>
          if inCowRange lo hi e then (e.1, e.2.1, { e.2.2 with w := false }) else e)) :=
    rfl
  refine ⟨_, _, hcf, hC, ?_, ?_, ?_, ?_, ?_⟩
  · exact fun idx h1 h2 => copy_src_query P lo hi F idx p h1 h2 (hP idx h1 h2)
  · exact fun idx h1 h2 => ⟨unmap_query_none _ lo hi idx h1 h2, hC idx h1 h2⟩
  · exact copy_child_refcount P lo hi F p hlohi (hP lo (Nat.le_refl lo) hlohi)
  · intro S S2 hS idx
    simp only [copyFrom, List.filter_nil, List.isEmpty_nil, if_true,
      unmap_filter_empty, List.map_nil, List.nil_append, Option.some.injEq,
      Prod.mk.injEq] at hS
    obtain ⟨h1, _⟩ := hS
    rw [← h1]
    rfl
  · intro dst idx h1 h2 hsome
    simp only [cowQuery] at hsome
    cases hf : dst.find? (fun e => e.1 == idx) with
    | none =>
      rw [hf] at hsome
      exact Bool.noConfusion hsome
    | some e =>
      have hpred := List.find?_some hf
      have hkey : e.1 = idx := eq_of_beq hpred
      have hmem : e ∈ dst := List.mem_of_find?_eq_some hf
      have hin : inCowRange lo hi e = true := by
        simp only [inCowRange, hkey, Bool.and_eq_true, decide_eq_true_iff]
        omega
      have hmemf : e ∈ dst.filter (inCowRange lo hi) :=
        List.mem_filter.mpr ⟨hmem, hin⟩
      have hne : (dst.filter (inCowRange lo hi)).isEmpty = false := by
        cases hE : dst.filter (inCowRange lo hi) with
        | nil =>
          rw [hE] at hmemf
          exact absurd hmemf (List.not_mem_nil e)
        | cons b rest => rfl
      simp [copyFrom, hne]

/-- Witness for C3 at a one-page source table. -/
theorem claim_C3_witness :
    ∃ C P2, copyFrom []
        [(1, 5,
          { r := true, w := true, x := false, user := false, global := false,
            cache := CachePolicy.Writeback })] 1 2
        (fun q => { q with w := false }) = some (C, P2) ∧
      (∀ idx, 1 ≤ idx → idx < 2 →
        cowQuery C idx = some (5,
          { r := true, w := false, x := false, user := false, global := false,
            cache := CachePolicy.Writeback })) ∧
      (∀ idx, 1 ≤ idx → idx < 2 →
        cowQuery P2 idx = some (5,
          { r := true, w := false, x := false, user := false, global := false,
            cache := CachePolicy.Writeback })) ∧
      (∀ idx, 1 ≤ idx → idx < 2 →
        cowQuery (cowUnmapRange P2 1 2) idx = none ∧
        cowQuery C idx = some (5,
          { r := true, w := false, x := false, user := false, global := false,
            cache := CachePolicy.Writeback })) ∧
      1 ≤ refcount [C] 5 ∧
      (∀ S S2, copyFrom [] (cowUnmapRange P2 1 2) 1 2
          (fun q => { q with w := false }) = some (S, S2) →
        ∀ idx, cowQuery S idx = none) ∧
      (∀ (dst : CowPt) (idx : Nat), 1 ≤ idx → idx < 2 →
        (cowQuery dst idx).isSome = true →
        copyFrom dst
          [(1, 5,
            { r := true, w := true, x := false, user := false, global := false,
              cache := CachePolicy.Writeback })] 1 2
          (fun q => { q with w := false }) = none) :=
  claim_C3_copy_from
    [(1, 5,
      { r := true, w := true, x := false, user := false, global := false,
        cache := CachePolicy.Writeback })] 1 2 5
    { r := true, w := true, x := false, user := false, global := false,
      cache := CachePolicy.Writeback } rfl (by decide)
    (fun idx h1 h2 => by
      have h : idx = 1 := by omega
      subst h
      rfl)
